import Mathlib

/-!
# ubench: measurement and statistics engine

A shallow embedding of `src/lib/ubench.cxx` and `src/include/ubench.h`.

Modelling conventions.

* `long double` (`ubench::duration`) is embedded as `ℚ`. The benchmark unit computes with
  exact rationals; infinities and NaN are outside the embedding. Rounding is modelled where
  a claim depends on it: `fl` is the rounding of a result to `long double`, and `mean_ld`,
  `stddev_ld`, `cv_ld` are the statistics with every operation rounded.
* The literals `1e-9` and `0.1` are `double` literals in the source; `EPSILON` and `TENTH`
  are their exact values, not the decimal numbers.
* `size_t` and `uint64_t` are `Nat`; the only place where wrap-around can be observed
  (differences of counter readings, the product `iter * step`) carries an explicit `% 2 ^ 64`.
* `std::sqrt` is a library routine and is passed as the parameter `sqrt`.
* Effects are explicit: every effectful routine takes a `Machine` and returns the new one
  together with `Except Err _`; state changes made before a `throw` persist.
* The time-stamp counter is an arbitrary oracle `Machine.tsc`, indexed by the number of reads.
-/

namespace ubench

/-! ## Data model (`ubench.h`) -/

/-- The type `ubench::duration`, a `long double` in the source. -/
abbrev duration := ℚ

/-- The type `ubench::arg`, a `size_t` in the source. -/
abbrev arg := Nat

/-- The type `ubench::args`, a vector of arguments. -/
abbrev args := List arg

/-- Number of values of a 64-bit unsigned integer. -/
def WORD : Nat := 2 ^ 64

/-- A `target_fn` function pointer: the address of the routine, `none` for `nullptr`. -/
abbrev target_fn := Option Nat

/-- A `prepare_fn` function pointer: the callback receives the argument vector by reference
and leaves it in a new state; `none` for `nullptr`. -/
abbrev prepare_fn := Option (args → args)

/-- The struct `ubench::options` with its default member initialisers. -/
structure options where
  name : String := ""
  target : target_fn := none
  prepare : prepare_fn := none
  iteration : Nat := 10000
  step : Nat := 20

/-- The struct `ubench::entry`. -/
structure entry where
  name : String
  arg : arg
  mean : duration
  median : duration
  stddev : duration
  cv : duration
deriving DecidableEq

/-- Abnormal outcomes: the two exceptions thrown by the library, and a hardware fault
(integer division by zero, call through a null function pointer). -/
inductive Err where
  | invalid_argument (what : String)
  | out_of_range (what : String)
  | fault
deriving DecidableEq

/-- The observable environment of a measurement. -/
structure Machine where
  /-- Value delivered by the time-stamp counter at its `n`-th read. -/
  tsc : Nat → Nat
  /-- Number of counter reads performed so far. -/
  reads : Nat
  /-- Target invocations performed so far (routine address, argument), oldest first. -/
  calls : List (Nat × arg)
  /-- Lines written to `std::cerr`, oldest first. -/
  cerr : List String

/-! ## Statistics (anonymous namespace of `ubench.cxx`) -/

/-- The constant `EPSILON = 1e-9`: the `double` literal `1e-9` converted to `long double`,
which is `4835703278458517 / 2 ^ 82 = 1.00000000000000006228...e-9`, slightly above
`10 ^ (-9)`. -/
def EPSILON : duration := 4835703278458517 / 2 ^ 82

/-- The `double` literal `0.1` in `warm_up`, converted to `long double` for the comparison:
`3602879701896397 / 2 ^ 55 = 0.1000000000000000055511...`, slightly above `1 / 10`. -/
def TENTH : duration := 3602879701896397 / 2 ^ 55

/-- The function `mean(v, size)`: `std::accumulate(v, v + size, 0.0L) / size`. -/
def mean (v : List duration) : duration :=
  v.foldl (fun acc x => acc + x) 0 / (v.length : ℚ)

/-- The function `median(sorted, size)`. -/
def median (sorted : List duration) : duration :=
  let size := sorted.length
  if size = 0 then 0
  else if size % 2 = 1 then sorted.getD (size / 2) 0
  else (sorted.getD (size / 2 - 1) 0 + sorted.getD (size / 2) 0) / 2

/-- The function `stddev(v, size, mean)`; `sqrt` stands for `std::sqrt`. -/
def stddev (sqrt : ℚ → ℚ) (v : List duration) (mean : duration) : duration :=
  let squ_dev := v.foldl (fun acc x => acc + (mean - x) * (mean - x)) 0
  let squ_dev := squ_dev / (v.length : ℚ)
  sqrt squ_dev

/-- The function `cv(stddev, mean)`. -/
def cv (stddev mean : duration) : duration :=
  if |mean| < EPSILON then 0 else stddev / mean

/-! ## Cycle clock (`rdtsc.h`) -/

/-- The function `rdtsc()`: read the 64-bit counter. -/
def rdtsc (m : Machine) : Nat × Machine :=
  (m.tsc m.reads % WORD, { m with reads := m.reads + 1 })

/-- The function `rdtscp()`: read the same counter, serialising. -/
def rdtscp (m : Machine) : Nat × Machine :=
  (m.tsc m.reads % WORD, { m with reads := m.reads + 1 })

/-- Difference `b - a` of two `uint64_t` values. -/
def sub64 (b a : Nat) : Nat := (b + WORD - a) % WORD

/-! ## Benchmark unit (`ubench.cxx`) -/

/-- The call `target(arg)` through the function pointer. -/
def invoke (target : target_fn) (a : arg) (m : Machine) : Except Err Unit × Machine :=
  match target with
  | none => (.error .fault, m)
  | some f => (.ok (), { m with calls := m.calls ++ [(f, a)] })

/-- The timed loop `for (i = 0; i < iter; ++i) target(arg);`. -/
def invoke_loop (target : target_fn) (a : arg) : Nat → Machine → Except Err Unit × Machine
  | 0, m => (.ok (), m)
  | iter + 1, m =>
    match invoke target a m with
    | (.error e, m1) => (.error e, m1)
    | (.ok (), m1) => invoke_loop target a iter m1

/-- The single measurement `benchmark::operator()(arg, iter)`. The fences and the empty
calibration loop between the first two reads change nothing the embedding observes. -/
def benchmark.measure (opts : options) (a : arg) (iter : Nat) (m : Machine) :
    Except Err duration × Machine :=
  let target := opts.target
  let (base_begin, m1) := rdtsc m
  let (base_end, m2) := rdtscp m1
  let base := sub64 base_end base_begin
  let (begin_, m3) := rdtsc m2
  match invoke_loop target a iter m3 with
  | (.error e, m4) => (.error e, m4)
  | (.ok (), m4) =>
    let (end_, m5) := rdtscp m4
    let elapsed := sub64 end_ begin_
    let elapsed := if elapsed < base then 0 else elapsed - base
    (.ok ((elapsed : ℚ) / (iter : ℚ)), m5)

/-- The loop `for (iter = 1; iter <= samples.size(); ++iter)
samples[iter - 1] = (*this)(arg, iter * step);` run up to `iter = count`: the samples in the
order they are stored. -/
def sample_loop (opts : options) (a : arg) : Nat → Machine → Except Err (List duration) × Machine
  | 0, m => (.ok [], m)
  | count + 1, m =>
    match sample_loop opts a count m with
    | (.error e, m1) => (.error e, m1)
    | (.ok samples, m1) =>
      match benchmark.measure opts a ((count + 1) * opts.step % WORD) m1 with
      | (.error e, m2) => (.error e, m2)
      | (.ok d, m2) => (.ok (samples ++ [d]), m2)

/-- The sweep `benchmark::operator()(arg)`. With `step = 0` the size `iteration / step` of the
sample vector is an integer division by zero. The call `std::sort` is the ascending sort. -/
def benchmark.sweep (sqrt : ℚ → ℚ) (opts : options) (a : arg) (m : Machine) :
    Except Err entry × Machine :=
  if opts.iteration < opts.step then
    (.error (.out_of_range "step cannot be greater than iteration"), m)
  else if opts.step = 0 then
    (.error .fault, m)
  else
    match sample_loop opts a (opts.iteration / opts.step) m with
    | (.error e, m1) => (.error e, m1)
    | (.ok samples, m1) =>
      let samples := samples.insertionSort (fun x y => x ≤ y)
      let mn := mean samples
      let sd := stddev sqrt samples mn
      (.ok { name := opts.name, arg := a, mean := mn, median := median samples,
             stddev := sd, cv := cv sd mn }, m1)

/-- The constant `MAX_TRIES` of `warm_up`. -/
def MAX_TRIES : Nat := 64

/-- Local variables of the loop in `warm_up`. -/
structure WarmState where
  old : entry
  continuous : Nat
  tries : Nat
deriving DecidableEq

/-- Loop condition `continuous < 3 && tries < MAX_TRIES`. -/
def warm_cond (s : WarmState) : Bool :=
  decide (s.continuous < 3) && decide (s.tries < MAX_TRIES)

/-- The body of the loop in `warm_up` (lines 180 to 193) followed by `++tries`, given the
freshly measured `current`. -/
def warm_body (s : WarmState) (current : entry) : WarmState :=
  let continuous :=
    if |s.old.cv| < EPSILON then
      if |current.cv| < EPSILON then s.continuous + 1 else 0
    else if |s.old.cv - current.cv| / s.old.cv ≤ TENTH then s.continuous + 1
    else 0
  { old := current, continuous := continuous, tries := s.tries + 1 }

/-- At most `fuel` iterations of the loop in `warm_up`, started in state `s`; `sweep` is the
call `(*this)(arg)`. The result is the state in which the loop stands after these iterations
(or at its exit, when that comes earlier). -/
def warm_up_loop (sweep : Machine → Except Err entry × Machine) :
    Nat → WarmState → Machine → Except Err WarmState × Machine
  | 0, s, m => (.ok s, m)
  | fuel + 1, s, m =>
    if warm_cond s then
      match sweep m with
      | (.error e, m1) => (.error e, m1)
      | (.ok current, m1) => warm_up_loop sweep fuel (warm_body s current) m1
    else (.ok s, m)

/-- The statement that writes the warning to `std::cerr`. -/
def warn (name : String) (m : Machine) : Machine :=
  { m with cerr := m.cerr ++
      ["warning: benchmark '" ++ name ++ "' failed to warm up correctly due to too many tries"] }

/-- The function `benchmark::warm_up(arg)` with the call `(*this)(arg)` abstracted as `sweep`.
The loop gets `MAX_TRIES` iterations; `tries` grows by one in each, so this is enough for the
loop to reach its exit, and more fuel changes nothing (`warm_up_loop_fuel`). -/
def warm_up_with (sweep : Machine → Except Err entry × Machine) (m : Machine) :
    Except Err Unit × Machine :=
  match sweep m with
  | (.error e, m1) => (.error e, m1)
  | (.ok old, m1) =>
    match warm_up_loop sweep MAX_TRIES { old := old, continuous := 0, tries := 0 } m1 with
    | (.error e, m2) => (.error e, m2)
    | (.ok s, m2) =>
      if s.tries ≥ MAX_TRIES then (.ok (), warn s.old.name m2) else (.ok (), m2)

/-- The function `benchmark::warm_up(arg)`. -/
def benchmark.warm_up (sqrt : ℚ → ℚ) (opts : options) (a : arg) (m : Machine) :
    Except Err Unit × Machine :=
  warm_up_with (benchmark.sweep sqrt opts a) m

/-- The loop `for (const auto arg : args)` of `benchmark::operator()(std::vector<entry>&)`. -/
def run_loop (sqrt : ℚ → ℚ) (opts : options) :
    List arg → List entry → Machine → Except Err Unit × List entry × Machine
  | [], entries, m => (.ok (), entries, m)
  | a :: rest, entries, m =>
    match benchmark.warm_up sqrt opts a m with
    | (.error e, m1) => (.error e, entries, m1)
    | (.ok (), m1) =>
      match benchmark.sweep sqrt opts a m1 with
      | (.error e, m2) => (.error e, entries, m2)
      | (.ok r, m2) => run_loop sqrt opts rest (entries ++ [r]) m2

/-- The whole-benchmark run `benchmark::operator()(std::vector<entry>&)`. -/
def benchmark.run_all (sqrt : ℚ → ℚ) (opts : options) (entries : List entry) (m : Machine) :
    Except Err Unit × List entry × Machine :=
  let args : args := []
  let args := match opts.prepare with
    | some fn => fn args
    | none => args
  run_loop sqrt opts args entries m

/-- The loop of `run()` over the registered options. -/
def run_registry (sqrt : ℚ → ℚ) :
    List options → List entry → Machine → Except Err (List entry) × Machine
  | [], entries, m => (.ok entries, m)
  | p :: rest, entries, m =>
    match benchmark.run_all sqrt p entries m with
    | (.error e, _, m1) => (.error e, m1)
    | (.ok (), entries1, m1) => run_registry sqrt rest entries1 m1

/-- The function `ubench::run()`; `registry` is the vector returned by `get_options()`. -/
def run (sqrt : ℚ → ℚ) (registry : List options) (m : Machine) :
    Except Err (List entry) × Machine :=
  run_registry sqrt registry [] m

/-- A `benchmark` object: its `_options` pointer, as the position of the pointee in the
registry. -/
structure benchmark where
  _options : Nat
deriving DecidableEq

/-- Assignment through the pointer `_options`. -/
def assign (registry : List options) (b : benchmark) (f : options → options) : List options :=
  registry.modify f b._options

/-- The constructor `benchmark::benchmark(name, target)` acting on the registry
`get_options()`. -/
def benchmark.create (name : String) (target : target_fn) (registry : List options) :
    Except Err benchmark × List options :=
  if target.isNone then
    (.error (.invalid_argument "target not specified"), registry)
  else
    let b : benchmark := { _options := registry.length }
    let registry := registry ++ [({} : options)]
    let registry := assign registry b (fun o => { o with name := name })
    let registry := assign registry b (fun o => { o with target := target })
    (.ok b, registry)

/-! ## Concrete instances used by the theorems -/

/-- A computable square root on `ℚ`, exact on squares of rationals, used where a concrete
instance of the parameter `sqrt` is needed. -/
def rat_sqrt (x : ℚ) : ℚ := (Nat.sqrt (x.num.toNat * x.den) : ℚ) / (x.den : ℚ)

/-- Configuration with a single sample per sweep, used to instantiate C9. -/
def unit_options : options := { name := "t", target := some 1, iteration := 1, step := 1 }

/-- Counter readings for the scenario of C6: eight reads per sweep. In sweeps 0, 2, .., 60
both timed loops take as long as their calibration loops; in all other sweeps the first
takes one cycle more and the second six cycles more. -/
def late_tsc (n : Nat) : Nat :=
  32 * (n / 8) +
    (if (n / 8) % 2 = 0 ∧ n / 8 ≤ 60 then [0, 5, 5, 10, 10, 15, 15, 20]
     else [0, 5, 5, 11, 11, 16, 16, 27]).getD (n % 8) 0

/-- Configuration for the scenario of C6: two samples per sweep. -/
def late_options : options := { name := "t", target := some 1, iteration := 2, step := 1 }

/-- Initial machine for the scenario of C6. -/
def late_machine : Machine := { tsc := late_tsc, reads := 0, calls := [], cerr := [] }

/-- Result of sweep number `j` in the scenario of C6. -/
def late_entry (j : Nat) : entry :=
  if j % 2 = 0 ∧ j ≤ 60 then
    { name := "t", arg := 0, mean := 0, median := 0, stddev := 0, cv := 0 }
  else
    { name := "t", arg := 0, mean := 2, median := 2, stddev := 1, cv := 1 / 2 }

/-! ## Further parts of the benchmark unit and the report (`ubench.h`, `ubench.cxx`) -/

/-- Lines 158 to 170 of `benchmark::operator()(arg)`: sort the samples and build the entry
(`sweep_aggregate` shows that the sweep returns this entry). -/
def aggregate (sqrt : ℚ → ℚ) (name : String) (a : arg) (samples : List duration) : entry :=
  let samples := samples.insertionSort (fun x y => x ≤ y)
  let mn := mean samples
  let sd := stddev sqrt samples mn
  { name := name, arg := a, mean := mn, median := median samples, stddev := sd, cv := cv sd mn }

/-- The setter `benchmark::prepare(fn)`: assign through `_options`, return `*this`. -/
def benchmark.prepare (b : benchmark) (fn : prepare_fn) (registry : List options) :
    benchmark × List options :=
  (b, assign registry b (fun o => { o with prepare := fn }))

/-- The setter `benchmark::iteration(iteration)`. -/
def benchmark.iteration (b : benchmark) (iteration : Nat) (registry : List options) :
    benchmark × List options :=
  (b, assign registry b (fun o => { o with iteration := iteration }))

/-- The setter `benchmark::step(step)`. -/
def benchmark.step (b : benchmark) (step : Nat) (registry : List options) :
    benchmark × List options :=
  (b, assign registry b (fun o => { o with step := step }))

/-- The struct `ubench::entry_size`. -/
structure entry_size where
  name : Nat
  mean : Nat
  median : Nat
  stddev : Nat
  cv : Nat
deriving DecidableEq

/-- The member `entry_size::adapt(other)`. -/
def entry_size.adapt (self other : entry_size) : entry_size :=
  { name := max self.name other.name,
    mean := max self.mean other.mean,
    median := max self.median other.median,
    stddev := max self.stddev other.stddev,
    cv := max self.cv other.cv }

/-- The struct `ubench::formatted_entry`; a `std::string` is a `String` whose characters are
the `char`s of the source string. -/
structure formatted_entry where
  name : String
  mean : String
  median : String
  stddev : String
  cv : String
deriving DecidableEq

/-- The constructor `formatted_entry(const entry &)`. The parameter `fmt` stands for
`format<duration>` (two-decimal fixed output of the stream library); the argument is written
in decimal. -/
def formatted_entry.of_entry (fmt : duration → String) (e : entry) : formatted_entry :=
  { mean := fmt e.mean,
    median := fmt e.median,
    stddev := fmt e.stddev,
    cv := fmt e.cv,
    name := e.name ++ "(" ++ toString e.arg ++ ")" }

/-- The member `formatted_entry::size()`. -/
def formatted_entry.size (f : formatted_entry) : entry_size :=
  { name := f.name.length,
    mean := f.mean.length,
    median := f.median.length,
    stddev := f.stddev.length,
    cv := f.cv.length }

/-- The text of `std::string(n, c)`. -/
def fill (n : Nat) (c : Char) : String := String.mk (List.replicate n c)

/-- The function `padl(s, size)`: the text it writes to `std::cout`. -/
def padl (s : String) (size : Nat) : String :=
  let size_s := s.length
  let pad := size - min size size_s
  fill pad ' ' ++ s

/-- The member `formatted_entry::print(size)`: the text it writes to `std::cout`. -/
def formatted_entry.print (f : formatted_entry) (size : entry_size) : String :=
  padl f.name size.name ++ " | " ++ padl f.mean size.mean ++ " | " ++
    padl f.median size.median ++ " | " ++ padl f.stddev size.stddev ++ " | " ++
    padl f.cv size.cv

/-- The local `header` of `print`. -/
def header : formatted_entry :=
  { name := "name(arg)", mean := "mean (cycle)", median := "median (cycle)",
    stddev := "stddev (cycle)", cv := "cv" }

/-- The loop of `print` that widens `size` by every formatted entry. -/
def table_size (formatted_entries : List formatted_entry) : entry_size :=
  formatted_entries.foldl (fun size f => size.adapt f.size) header.size

/-- The separator line written by `print`. -/
def separator (size : entry_size) : String :=
  fill size.name '-' ++ ":|" ++ fill (size.mean + 1) '-' ++ ":|" ++
    fill (size.median + 1) '-' ++ ":|" ++ fill (size.stddev + 1) '-' ++ ":|" ++
    fill size.cv '-' ++ ":"

/-- The function `ubench::print(entries)`: the lines it writes to `std::cout`, each ended by
`std::endl` in the source. -/
def print (fmt : duration → String) (entries : List entry) : List String :=
  let formatted_entries := entries.map (formatted_entry.of_entry fmt)
  let size := table_size formatted_entries
  header.print size :: separator size :: formatted_entries.map (fun e => e.print size)

/-! ## Reference definitions, worded as the spec words them -/

/-- Arithmetic average `(x_1 + ... + x_n) / n`. -/
def mean_ref (x : List ℚ) : ℚ := x.sum / (x.length : ℚ)

/-- Population standard deviation `sqrt ((1 / n) * sum_i (x_i - mean) ^ 2)`. -/
def stddev_ref (sqrt : ℚ → ℚ) (x : List ℚ) : ℚ :=
  sqrt ((1 / (x.length : ℚ)) * (x.map (fun xi => (xi - mean_ref x) ^ 2)).sum)

/-- The iteration counts of a sweep as the spec words them: `k * S` for `k = 1 .. N / S`. -/
def schedule (opts : options) : List Nat :=
  (List.range (opts.iteration / opts.step)).map (fun k => (k + 1) * opts.step)

/-- Single measurements at the given iteration counts, one after the other, all with
argument `a`; the samples in that order. -/
def measure_each (opts : options) (a : arg) :
    List Nat → Machine → Except Err (List duration) × Machine
  | [], m => (.ok [], m)
  | iter :: rest, m =>
    match benchmark.measure opts a iter m with
    | (.error e, m1) => (.error e, m1)
    | (.ok d, m1) =>
      match measure_each opts a rest m1 with
      | (.error e, m2) => (.error e, m2)
      | (.ok ds, m2) => (.ok (d :: ds), m2)

/-- The value of the local `size` of `print` after its widening loop. -/
def report_size (fmt : duration → String) (entries : List entry) : entry_size :=
  table_size (entries.map (formatted_entry.of_entry fmt))

/-! ## Rounded `long double` arithmetic

The definitions above compute with exact rationals. Where a claim asserts that a computed
value is exactly some number, the rounding of every `long double` operation matters; the
definitions of this section repeat `mean`, `stddev` and `cv` with each operation rounded. -/

theorem foldl_add_eq_sum (v : List ℚ) (z : ℚ) :
    v.foldl (fun acc x => acc + x) z = z + v.sum := by
  induction v generalizing z with
  | nil => simp
  | cons x xs ih => simp [ih, add_assoc]

theorem foldl_sq_replicate (c : ℚ) (n : Nat) (z : ℚ) :
    (List.replicate n c).foldl (fun acc x => acc + (c - x) * (c - x)) z = z := by
  induction n generalizing z with
  | zero => simp
  | succ k ih => simp [List.replicate_succ, ih]

theorem mean_replicate (c : ℚ) (n : Nat) (hn : 0 < n) : mean (List.replicate n c) = c := by
  have h : (n : ℚ) ≠ 0 := by exact_mod_cast hn.ne'
  simp [mean, foldl_add_eq_sum]
  field_simp

theorem invoke_loop_some (t : Nat) (a : arg) (iter : Nat) (m : Machine) :
    invoke_loop (some t) a iter m =
      (.ok (), { m with calls := m.calls ++ List.replicate iter (t, a) }) := by
  induction iter generalizing m with
  | zero => simp [invoke_loop]
  | succ k ih =>
    simp [invoke_loop, invoke, ih, List.replicate_succ]

theorem measure_some (opts : options) (a : arg) (iter : Nat) (m : Machine) (t : Nat)
    (ht : opts.target = some t) :
    benchmark.measure opts a iter m =
      (.ok ((((if sub64 (m.tsc (m.reads + 3) % WORD) (m.tsc (m.reads + 2) % WORD)
                  < sub64 (m.tsc (m.reads + 1) % WORD) (m.tsc m.reads % WORD) then 0
               else sub64 (m.tsc (m.reads + 3) % WORD) (m.tsc (m.reads + 2) % WORD)
                  - sub64 (m.tsc (m.reads + 1) % WORD) (m.tsc m.reads % WORD) : Nat) : ℚ))
              / (iter : ℚ)),
       { m with reads := m.reads + 4, calls := m.calls ++ List.replicate iter (t, a) }) := by
  simp [benchmark.measure, rdtsc, rdtscp, ht, invoke_loop_some]

theorem constant_samples (sqrt : ℚ → ℚ) (hsqrt : sqrt 0 = 0) (v : List ℚ) (c : ℚ)
    (hne : v ≠ []) (hc : ∀ x ∈ v, x = c) :
    mean v = c ∧ stddev sqrt v (mean v) = 0 ∧ cv (stddev sqrt v (mean v)) (mean v) = 0 := by
  have hv : v = List.replicate v.length c := List.eq_replicate_iff.mpr ⟨rfl, hc⟩
  have hn : 0 < v.length := List.length_pos.mpr hne
  rw [hv]
  generalize v.length = n at hn
  have hm : mean (List.replicate n c) = c := mean_replicate c n hn
  have hs : stddev sqrt (List.replicate n c) c = 0 := by
    simp [stddev, foldl_sq_replicate, hsqrt]
  rw [hm, hs]
  refine ⟨rfl, rfl, ?_⟩
  unfold cv
  split <;> simp

theorem sample_loop_some (opts : options) (a : arg) (t : Nat) (ht : opts.target = some t)
    (count : Nat) (m : Machine) :
    ∃ samples m1, sample_loop opts a count m = (.ok samples, m1) ∧ samples.length = count ∧
      m1.tsc = m.tsc ∧ m1.reads = m.reads + 4 * count ∧ m1.cerr = m.cerr := by
  induction count with
  | zero => exact ⟨[], m, rfl, rfl, rfl, rfl, rfl⟩
  | succ k ih =>
    obtain ⟨samples, m1, h1, hlen, htsc, hreads, hcerr⟩ := ih
    simp only [sample_loop, h1, measure_some opts a _ m1 t ht]
    exact ⟨_, _, rfl, by simp [hlen], htsc, by simp only [hreads]; omega, hcerr⟩

theorem sweep_some (sqrt : ℚ → ℚ) (opts : options) (a : arg) (m : Machine) (t : Nat)
    (ht : opts.target = some t) (h1 : 1 ≤ opts.step) (h2 : opts.step ≤ opts.iteration) :
    ∃ e m1, benchmark.sweep sqrt opts a m = (.ok e, m1) ∧ e.name = opts.name ∧ e.arg = a ∧
      m1.tsc = m.tsc ∧ m1.reads = m.reads + 4 * (opts.iteration / opts.step) ∧
      m1.cerr = m.cerr := by
  obtain ⟨samples, m1, hs, -, htsc, hreads, hcerr⟩ :=
    sample_loop_some opts a t ht (opts.iteration / opts.step) m
  have h0 : opts.step ≠ 0 := by omega
  simp only [benchmark.sweep, if_neg (not_lt.mpr h2), if_neg h0, hs]
  exact ⟨_, m1, rfl, rfl, rfl, htsc, hreads, hcerr⟩

theorem warm_up_loop_step (sweep : Machine → Except Err entry × Machine) (fuel : Nat)
    (s : WarmState) (m m1 : Machine) (cur : entry) (hc : warm_cond s = true)
    (h : sweep m = (.ok cur, m1)) :
    warm_up_loop sweep (fuel + 1) s m = warm_up_loop sweep fuel (warm_body s cur) m1 := by
  simp only [warm_up_loop, hc, if_true, h]

theorem warm_up_loop_exit (sweep : Machine → Except Err entry × Machine) (fuel : Nat)
    (s : WarmState) (m : Machine) (hc : warm_cond s = false) :
    warm_up_loop sweep fuel s m = (.ok s, m) := by
  cases fuel with
  | zero => rfl
  | succ k => simp [warm_up_loop, hc]

theorem warm_up_loop_fuel (sweep : Machine → Except Err entry × Machine) (fuel : Nat)
    (s : WarmState) (m : Machine) (h : MAX_TRIES - s.tries ≤ fuel) :
    warm_up_loop sweep fuel s m = warm_up_loop sweep (MAX_TRIES - s.tries) s m := by
  induction fuel generalizing s m with
  | zero =>
    have h0 : MAX_TRIES - s.tries = 0 := by omega
    rw [h0]
  | succ k ih =>
    by_cases hc : warm_cond s = true
    · have hc2 := hc
      simp only [warm_cond, Bool.and_eq_true, decide_eq_true_eq] at hc2
      have hf : MAX_TRIES - s.tries = (MAX_TRIES - (s.tries + 1)) + 1 := by omega
      rw [hf]
      simp only [warm_up_loop, hc, if_true]
      rcases hsw : sweep m with ⟨r, m1⟩
      cases r with
      | error e => rfl
      | ok cur =>
        have hk : MAX_TRIES - (warm_body s cur).tries ≤ k := by
          show MAX_TRIES - (s.tries + 1) ≤ k
          omega
        exact ih (warm_body s cur) m1 hk
    · have hc1 : warm_cond s = false := by simpa using hc
      rw [warm_up_loop_exit sweep _ s m hc1, warm_up_loop_exit sweep _ s m hc1]

theorem warm_body_tries (s : WarmState) (cur : entry) :
    (warm_body s cur).tries = s.tries + 1 ∧ (warm_body s cur).old = cur ∧
      ((warm_body s cur).continuous = s.continuous + 1 ∨ (warm_body s cur).continuous = 0) := by
  refine ⟨rfl, rfl, ?_⟩
  simp only [warm_body]
  split_ifs <;> simp

theorem warm_body_same (s : WarmState) (cur : entry) (h : cur.cv = s.old.cv) :
    warm_body s cur = { old := cur, continuous := s.continuous + 1, tries := s.tries + 1 } := by
  simp only [warm_body, h, sub_self, abs_zero, zero_div]
  split_ifs with h1 h2
  · rfl
  · rfl
  · exact absurd (by norm_num [TENTH] : (0 : ℚ) ≤ TENTH) h2

/-- The loop of `warm_up`, when no sweep fails and each sweep reads the counter `n` times:
it returns, the bounds on the counters are kept, the condition is false once the fuel covers
the remaining tries, and every iteration made one sweep. -/
theorem warm_up_loop_run (sweep : Machine → Except Err entry × Machine) (n : Nat)
    (hs : ∀ m, ∃ e m1, sweep m = (.ok e, m1) ∧ m1.reads = m.reads + n ∧ m1.cerr = m.cerr)
    (fuel : Nat) (s : WarmState) (m : Machine)
    (h3 : s.continuous ≤ 3) (ht : s.continuous ≤ s.tries) (hm : s.tries ≤ MAX_TRIES) :
    ∃ s1 m1, warm_up_loop sweep fuel s m = (.ok s1, m1) ∧
      s1.continuous ≤ 3 ∧ s1.continuous ≤ s1.tries ∧ s1.tries ≤ MAX_TRIES ∧
      s.tries ≤ s1.tries ∧ s1.tries ≤ s.tries + fuel ∧
      (MAX_TRIES - s.tries ≤ fuel → warm_cond s1 = false) ∧
      m1.reads = m.reads + (s1.tries - s.tries) * n ∧ m1.cerr = m.cerr := by
  induction fuel generalizing s m with
  | zero =>
    refine ⟨s, m, rfl, h3, ht, hm, le_rfl, le_rfl, ?_, by simp, rfl⟩
    intro h
    have : ¬ s.tries < MAX_TRIES := by omega
    simp [warm_cond, this]
  | succ k ih =>
    by_cases hc : warm_cond s = true
    · obtain ⟨cur, m1, hsw, hr, hce⟩ := hs m
      have hc2 := hc
      simp only [warm_cond, Bool.and_eq_true, decide_eq_true_eq] at hc2
      obtain ⟨ht1, ho, hcont⟩ := warm_body_tries s cur
      have h3b : (warm_body s cur).continuous ≤ 3 := by
        rcases hcont with h | h <;> omega
      have htb : (warm_body s cur).continuous ≤ (warm_body s cur).tries := by
        rcases hcont with h | h <;> omega
      have hmb : (warm_body s cur).tries ≤ MAX_TRIES := by omega
      obtain ⟨s1, m2, hrun, a1, a2, a3, a4, a5, a6, a7, a8⟩ :=
        ih (warm_body s cur) m1 h3b htb hmb
      refine ⟨s1, m2, ?_, a1, a2, a3, by omega, by omega, ?_, ?_, by rw [a8, hce]⟩
      · rw [warm_up_loop_step sweep k s m m1 cur hc hsw, hrun]
      · intro h
        exact a6 (by omega)
      · rw [a7, hr, ht1]
        have : s1.tries - s.tries = (s1.tries - (s.tries + 1)) + 1 := by omega
        rw [this, Nat.add_mul]
        omega
    · have hc1 : warm_cond s = false := by simpa using hc
      refine ⟨s, m, warm_up_loop_exit sweep _ s m hc1, h3, ht, hm, le_rfl, by omega,
        fun _ => hc1, by simp, rfl⟩

theorem sub64_small (a b : Nat) (hab : a ≤ b) (hb : b < WORD) :
    sub64 (b % WORD) (a % WORD) = b - a := by
  have ha : a < WORD := lt_of_le_of_lt hab hb
  rw [Nat.mod_eq_of_lt hb, Nat.mod_eq_of_lt ha]
  unfold sub64
  have : b + WORD - a = (b - a) + WORD := by omega
  rw [this, Nat.add_mod_right]
  exact Nat.mod_eq_of_lt (by omega)

theorem late_tsc_at (j p : Nat) (hp : p < 8) :
    late_tsc (8 * j + p) = 32 * j +
      (if j % 2 = 0 ∧ j ≤ 60 then [0, 5, 5, 10, 10, 15, 15, 20]
       else [0, 5, 5, 11, 11, 16, 16, 27]).getD p 0 := by
  have h1 : (8 * j + p) / 8 = j := by omega
  have h2 : (8 * j + p) % 8 = p := by omega
  simp only [late_tsc, h1, h2]

theorem measure_of_readings (opts : options) (a : arg) (iter : Nat) (m : Machine) (t : Nat)
    (ht : opts.target = some t) (c0 c1 c2 c3 base raw : Nat)
    (h0 : m.tsc m.reads = c0) (h1 : m.tsc (m.reads + 1) = c1)
    (h2 : m.tsc (m.reads + 2) = c2) (h3 : m.tsc (m.reads + 3) = c3)
    (h01 : c0 ≤ c1) (h23 : c2 ≤ c3) (hw1 : c1 < WORD) (hw3 : c3 < WORD)
    (hbase : c1 - c0 = base) (hraw : c3 - c2 = raw) :
    benchmark.measure opts a iter m =
      (.ok (((if raw < base then 0 else raw - base : Nat) : ℚ) / (iter : ℚ)),
       { m with reads := m.reads + 4, calls := m.calls ++ List.replicate iter (t, a) }) := by
  rw [measure_some opts a iter m t ht, h0, h1, h2, h3, sub64_small c0 c1 h01 hw1,
    sub64_small c2 c3 h23 hw3, hbase, hraw]

theorem late_sweep (j : Nat) (hj : j ≤ 64) (m : Machine) (htsc : m.tsc = late_tsc)
    (hreads : m.reads = 8 * j) :
    ∃ m1, benchmark.sweep rat_sqrt late_options 0 m = (.ok (late_entry j), m1) ∧
      m1.tsc = late_tsc ∧ m1.reads = 8 * (j + 1) ∧ m1.cerr = m.cerr := by
  have hW : WORD = 18446744073709551616 := by norm_num [WORD]
  have e0 := late_tsc_at j 0 (by decide)
  have e1 := late_tsc_at j 1 (by decide)
  have e2 := late_tsc_at j 2 (by decide)
  have e3 := late_tsc_at j 3 (by decide)
  have e4 := late_tsc_at j 4 (by decide)
  have e5 := late_tsc_at j 5 (by decide)
  have e6 := late_tsc_at j 6 (by decide)
  have e7 := late_tsc_at j 7 (by decide)
  have ht : late_options.target = some 1 := rfl
  rw [Nat.add_zero] at e0
  have hstat : ∀ (x y : ℚ) (e : entry) (mA m2 : Machine),
      benchmark.measure late_options 0 1 m = (.ok x, mA) →
      benchmark.measure late_options 0 2 mA = (.ok y, m2) →
      e = (let samples := [x, y].insertionSort (fun x y => x ≤ y)
           { name := "t", arg := 0, mean := mean samples, median := median samples,
             stddev := stddev rat_sqrt samples (mean samples),
             cv := cv (stddev rat_sqrt samples (mean samples)) (mean samples) }) →
      benchmark.sweep rat_sqrt late_options 0 m = (.ok e, m2) := by
    intro x y e mA m2 h1 h2 he
    have hq : late_options.iteration / late_options.step = 1 + 1 := rfl
    have hs : late_options.step = 1 := rfl
    have hlt : ¬ late_options.iteration < late_options.step := by decide
    have hn : (0 + 1) * 1 % WORD = 1 := by rw [hW]
    have hn2 : (1 + 1) * 1 % WORD = 2 := by rw [hW]
    simp only [benchmark.sweep, if_neg hlt, hq, hs, sample_loop, hn, hn2, h1, h2, he,
      one_ne_zero, if_false, List.nil_append, List.singleton_append]
    rfl
  by_cases hA : j % 2 = 0 ∧ j ≤ 60
  · simp only [if_pos hA, List.getD_cons_zero, List.getD_cons_succ] at e0 e1 e2 e3 e4 e5 e6 e7
    have hm1 := measure_of_readings late_options 0 1 m 1 ht
      (32 * j) (32 * j + 5) (32 * j + 5) (32 * j + 10) 5 5
      (by rw [htsc, hreads]; exact e0) (by rw [htsc, hreads]; exact e1)
      (by rw [htsc, hreads]; exact e2) (by rw [htsc, hreads]; exact e3)
      (by omega) (by omega) (by omega) (by omega) (by omega) (by omega)
    have hm2 := measure_of_readings late_options 0 2
      { m with reads := m.reads + 4, calls := m.calls ++ List.replicate 1 (1, 0) } 1 ht
      (32 * j + 10) (32 * j + 15) (32 * j + 15) (32 * j + 20) 5 5
      (by simp only [htsc, hreads]; exact e4) (by simp only [htsc, hreads]; exact e5)
      (by simp only [htsc, hreads]; exact e6) (by simp only [htsc, hreads]; exact e7)
      (by omega) (by omega) (by omega) (by omega) (by omega) (by omega)
    refine ⟨_, hstat _ _ _ _ _ hm1 hm2 ?_, htsc, ?_, rfl⟩
    · simp only [late_entry, if_pos hA]
      norm_num [mean, median, stddev, cv, rat_sqrt, EPSILON]
    · simp only [hreads]; omega
  · simp only [if_neg hA, List.getD_cons_zero, List.getD_cons_succ] at e0 e1 e2 e3 e4 e5 e6 e7
    have hm1 := measure_of_readings late_options 0 1 m 1 ht
      (32 * j) (32 * j + 5) (32 * j + 5) (32 * j + 11) 5 6
      (by rw [htsc, hreads]; exact e0) (by rw [htsc, hreads]; exact e1)
      (by rw [htsc, hreads]; exact e2) (by rw [htsc, hreads]; exact e3)
      (by omega) (by omega) (by omega) (by omega) (by omega) (by omega)
    have hm2 := measure_of_readings late_options 0 2
      { m with reads := m.reads + 4, calls := m.calls ++ List.replicate 1 (1, 0) } 1 ht
      (32 * j + 11) (32 * j + 16) (32 * j + 16) (32 * j + 27) 5 11
      (by simp only [htsc, hreads]; exact e4) (by simp only [htsc, hreads]; exact e5)
      (by simp only [htsc, hreads]; exact e6) (by simp only [htsc, hreads]; exact e7)
      (by omega) (by omega) (by omega) (by omega) (by omega) (by omega)
    refine ⟨_, hstat _ _ _ _ _ hm1 hm2 ?_, htsc, ?_, rfl⟩
    · simp only [late_entry, if_neg hA]
      norm_num [mean, median, stddev, cv, rat_sqrt, EPSILON]
    · simp only [hreads]; omega

theorem late_unstable (j : Nat) (hj : j ≤ 60) :
    warm_body { old := late_entry j, continuous := 0, tries := j } (late_entry (j + 1)) =
      { old := late_entry (j + 1), continuous := 0, tries := j + 1 } := by
  by_cases hA : j % 2 = 0
  · have h1 : j % 2 = 0 ∧ j ≤ 60 := ⟨hA, hj⟩
    have h2 : ¬ ((j + 1) % 2 = 0 ∧ j + 1 ≤ 60) := by omega
    simp only [warm_body, late_entry, if_pos h1, if_neg h2]
    norm_num [EPSILON, TENTH, abs_of_pos]
  · have h1 : ¬ (j % 2 = 0 ∧ j ≤ 60) := by omega
    have h2 : (j + 1) % 2 = 0 ∧ j + 1 ≤ 60 := by omega
    simp only [warm_body, late_entry, if_neg h1, if_pos h2]
    norm_num [EPSILON, TENTH, abs_of_pos]

theorem late_stable (j c : Nat) (hj : 61 ≤ j) :
    warm_body { old := late_entry j, continuous := c, tries := j } (late_entry (j + 1)) =
      { old := late_entry (j + 1), continuous := c + 1, tries := j + 1 } := by
  have h1 : ¬ (j % 2 = 0 ∧ j ≤ 60) := by omega
  have h2 : ¬ ((j + 1) % 2 = 0 ∧ j + 1 ≤ 60) := by omega
  rw [warm_body_same]
  simp only [late_entry, if_neg h1, if_neg h2]

theorem late_loop (d : Nat) : ∀ (j : Nat), j + d = 61 → ∀ (m : Machine), m.tsc = late_tsc →
    m.reads = 8 * (j + 1) →
    ∃ m2, warm_up_loop (benchmark.sweep rat_sqrt late_options 0) (64 - j)
        { old := late_entry j, continuous := 0, tries := j } m =
        (.ok { old := late_entry 64, continuous := 3, tries := 64 }, m2) ∧
      m2.cerr = m.cerr := by
  induction d with
  | zero =>
    intro j hj m htsc hreads
    obtain rfl : j = 61 := by omega
    obtain ⟨m1, hs1, t1, r1, c1⟩ := late_sweep 62 (by decide) m htsc hreads
    obtain ⟨m2, hs2, t2, r2, c2⟩ := late_sweep 63 (by decide) m1 t1 r1
    obtain ⟨m3, hs3, t3, r3, c3⟩ := late_sweep 64 (by decide) m2 t2 r2
    refine ⟨m3, ?_, by rw [c3, c2, c1]⟩
    show warm_up_loop _ (0 + 1 + 1 + 1) _ m = _
    rw [warm_up_loop_step _ _ { old := late_entry 61, continuous := 0, tries := 61 }
        m m1 _ rfl hs1, late_stable 61 0 (by decide),
      warm_up_loop_step _ _ { old := late_entry 62, continuous := 1, tries := 62 }
        m1 m2 _ rfl hs2, late_stable 62 1 (by decide),
      warm_up_loop_step _ _ { old := late_entry 63, continuous := 2, tries := 63 }
        m2 m3 _ rfl hs3, late_stable 63 2 (by decide)]
    rfl
  | succ k ih =>
    intro j hj m htsc hreads
    obtain ⟨m1, hs1, t1, r1, c1⟩ := late_sweep (j + 1) (by omega) m htsc hreads
    obtain ⟨m2, hrun, c2⟩ := ih (j + 1) (by omega) m1 t1 r1
    refine ⟨m2, ?_, by rw [c2, c1]⟩
    have hf : 64 - j = (64 - (j + 1)) + 1 := by omega
    have hc : warm_cond { old := late_entry j, continuous := 0, tries := j } = true := by
      simp only [warm_cond, MAX_TRIES, Bool.and_eq_true, decide_eq_true_eq]
      omega
    rw [hf, warm_up_loop_step _ _ _ m m1 _ hc hs1, late_unstable j (by omega), hrun]

theorem warm_up_some (sqrt : ℚ → ℚ) (opts : options) (a : arg) (m : Machine) (t : Nat)
    (ht : opts.target = some t) (h1 : 1 ≤ opts.step) (h2 : opts.step ≤ opts.iteration) :
    ∃ m1, benchmark.warm_up sqrt opts a m = (.ok (), m1) := by
  have hs : ∀ m, ∃ e m1, benchmark.sweep sqrt opts a m = (.ok e, m1) ∧
      m1.reads = m.reads + 4 * (opts.iteration / opts.step) ∧ m1.cerr = m.cerr := by
    intro m
    obtain ⟨e, m1, h, -, -, -, hr, hc⟩ := sweep_some sqrt opts a m t ht h1 h2
    exact ⟨e, m1, h, hr, hc⟩
  obtain ⟨old, m1, h0, -, -⟩ := hs m
  obtain ⟨s, m2, hrun, -⟩ :=
    warm_up_loop_run _ _ hs MAX_TRIES { old := old, continuous := 0, tries := 0 } m1
      (Nat.zero_le _) le_rfl (Nat.zero_le _)
  simp only [benchmark.warm_up, warm_up_with, h0, hrun]
  split_ifs
  · exact ⟨_, rfl⟩
  · exact ⟨_, rfl⟩

theorem run_loop_some (sqrt : ℚ → ℚ) (opts : options) (t : Nat)
    (ht : opts.target = some t) (h1 : 1 ≤ opts.step) (h2 : opts.step ≤ opts.iteration)
    (l : List arg) (entries : List entry) (m : Machine) :
    ∃ es m1, run_loop sqrt opts l entries m = (.ok (), entries ++ es, m1) ∧
      es.map (fun e => (e.name, e.arg)) = l.map (fun a => (opts.name, a)) := by
  induction l generalizing entries m with
  | nil => exact ⟨[], m, by simp [run_loop], rfl⟩
  | cons a rest ih =>
    obtain ⟨m1, hw⟩ := warm_up_some sqrt opts a m t ht h1 h2
    obtain ⟨r, m2, hs, hn, ha, -⟩ := sweep_some sqrt opts a m1 t ht h1 h2
    obtain ⟨es, m3, hrun, hmap⟩ := ih (entries ++ [r]) m2
    refine ⟨r :: es, m3, ?_, ?_⟩
    · simp only [run_loop, hw, hs, hrun, List.append_assoc, List.singleton_append]
    · simp only [List.map_cons, hmap, hn, ha]

theorem modify_last {α : Type} (f : α → α) (l : List α) (x : α) :
    (l ++ [x]).modify f l.length = l ++ [f x] := by
  induction l with
  | nil => rfl
  | cons y ys ih => simp [List.modify_succ_cons, ih]

theorem unit_sweep_cv (m : Machine) :
    ∃ e m1, benchmark.sweep rat_sqrt unit_options 5 m = (.ok e, m1) ∧ e.cv = 0 := by
  have hlt : ¬ unit_options.iteration < unit_options.step := by decide
  have hq : unit_options.iteration / unit_options.step = 0 + 1 := rfl
  have hs : unit_options.step = 1 := rfl
  have hn : (0 + 1) * 1 % WORD = 1 := by norm_num [WORD]
  have hm := measure_some unit_options 5 1 m 1 rfl
  generalize hx : (((if sub64 (m.tsc (m.reads + 3) % WORD) (m.tsc (m.reads + 2) % WORD)
                  < sub64 (m.tsc (m.reads + 1) % WORD) (m.tsc m.reads % WORD) then 0
               else sub64 (m.tsc (m.reads + 3) % WORD) (m.tsc (m.reads + 2) % WORD)
                  - sub64 (m.tsc (m.reads + 1) % WORD) (m.tsc m.reads % WORD) : Nat) : ℚ))
              / ((1 : Nat) : ℚ) = x at hm
  simp only [benchmark.sweep, if_neg hlt, hq, hs, sample_loop, hn, hm, one_ne_zero, if_false,
    List.nil_append, List.insertionSort, List.orderedInsert]
  exact ⟨_, _, rfl, (constant_samples rat_sqrt (by simp [rat_sqrt]) [x] x (by simp)
    (by simp)).2.2⟩

/-! ## The claims -/

/-- C1: a single measurement returns 0 when the timed target loop took fewer cycles than the
empty loop, `(raw - base) / iter` otherwise, and in both cases a non-negative duration. -/
theorem measure_clamped (opts : options) (a : arg) (iter : Nat) (m : Machine) (t raw base : Nat)
    (ht : opts.target = some t) (_hiter : 1 ≤ iter)
    (hbase : sub64 (m.tsc (m.reads + 1) % WORD) (m.tsc m.reads % WORD) = base)
    (hraw : sub64 (m.tsc (m.reads + 3) % WORD) (m.tsc (m.reads + 2) % WORD) = raw) :
    ∃ d m1, benchmark.measure opts a iter m = (.ok d, m1) ∧
      (raw < base → d = 0) ∧
      (base ≤ raw → d = ((raw : ℚ) - (base : ℚ)) / (iter : ℚ)) ∧
      0 ≤ d := by
  refine ⟨_, _, measure_some opts a iter m t ht, ?_, ?_, ?_⟩
  · intro h
    rw [hbase, hraw, if_pos h]
    simp
  · intro h
    rw [hbase, hraw, if_neg (not_lt.mpr h), Nat.cast_sub h]
  · positivity

theorem measure_clamped_witness :
    ∃ d m1, benchmark.measure { name := "t", target := some 1 } 7 2
        { tsc := fun n => 5 * n * n, reads := 0, calls := [], cerr := [] } = (.ok d, m1) ∧
      (25 < 5 → d = 0) ∧ (5 ≤ 25 → d = ((25 : ℚ) - (5 : ℚ)) / (2 : ℚ)) ∧ 0 ≤ d :=
  measure_clamped { name := "t", target := some 1 } 7 2
    { tsc := fun n => 5 * n * n, reads := 0, calls := [], cerr := [] } 1 25 5 rfl (by decide)
    (by decide) (by decide)

/-- C2: with `iteration < step` the sweep throws the configuration error and leaves the
machine as it found it: no counter read, no target invocation. -/
theorem sweep_configuration_error (sqrt : ℚ → ℚ) (opts : options) (a : arg) (m : Machine)
    (h : opts.iteration < opts.step) :
    benchmark.sweep sqrt opts a m =
        (.error (.out_of_range "step cannot be greater than iteration"), m) ∧
      (benchmark.sweep sqrt opts a m).2.reads = m.reads ∧
      (benchmark.sweep sqrt opts a m).2.calls = m.calls := by
  simp [benchmark.sweep, h]

theorem sweep_configuration_error_witness :
    benchmark.sweep id { name := "t", target := some 1, iteration := 5, step := 10 } 3
        { tsc := fun n => n, reads := 0, calls := [], cerr := [] } =
        (.error (.out_of_range "step cannot be greater than iteration"),
          { tsc := fun n => n, reads := 0, calls := [], cerr := [] }) ∧
      (benchmark.sweep id { name := "t", target := some 1, iteration := 5, step := 10 } 3
        { tsc := fun n => n, reads := 0, calls := [], cerr := [] }).2.reads = 0 ∧
      (benchmark.sweep id { name := "t", target := some 1, iteration := 5, step := 10 } 3
        { tsc := fun n => n, reads := 0, calls := [], cerr := [] }).2.calls = [] :=
  sweep_configuration_error id { name := "t", target := some 1, iteration := 5, step := 10 } 3
    { tsc := fun n => n, reads := 0, calls := [], cerr := [] } (by decide)

/-- C3: `median` of a one-element sequence is that element, of a pair the average of the two,
of an odd-length sequence the element at index `n / 2`, of a non-empty even-length sequence
the average of the elements at indices `n / 2 - 1` and `n / 2`, and of the empty sequence 0. -/
theorem median_cases :
    (∀ x : ℚ, median [x] = x) ∧
    (∀ a b : ℚ, median [a, b] = (a + b) / 2) ∧
    (∀ l : List ℚ, l.length % 2 = 1 → l[l.length / 2]? = some (median l)) ∧
    (∀ l : List ℚ, l.length % 2 = 0 → 0 < l.length →
      ∃ x y, l[l.length / 2 - 1]? = some x ∧ l[l.length / 2]? = some y ∧
        median l = (x + y) / 2) ∧
    median [] = 0 := by
  refine ⟨?_, ?_, ?_, ?_, ?_⟩
  · intro x
    simp [median]
  · intro a b
    simp [median]
  · intro l h
    have hlt : l.length / 2 < l.length := by omega
    have h0 : l.length ≠ 0 := by omega
    simp [median, h, h0, List.getD, List.getElem?_eq_getElem hlt]
  · intro l h hpos
    have hlt : l.length / 2 < l.length := by omega
    have hlt1 : l.length / 2 - 1 < l.length := by omega
    have h0 : l.length ≠ 0 := by omega
    refine ⟨l[l.length / 2 - 1], l[l.length / 2], List.getElem?_eq_getElem hlt1,
      List.getElem?_eq_getElem hlt, ?_⟩
    simp [median, h, h0, List.getD, List.getElem?_eq_getElem hlt,
      List.getElem?_eq_getElem hlt1]
  · simp [median]

theorem median_cases_witness :
    [(1 : ℚ), 4, 9][[(1 : ℚ), 4, 9].length / 2]? = some (median [1, 4, 9]) ∧
    ∃ x y, [(1 : ℚ), 4, 9, 16][[(1 : ℚ), 4, 9, 16].length / 2 - 1]? = some x ∧
      [(1 : ℚ), 4, 9, 16][[(1 : ℚ), 4, 9, 16].length / 2]? = some y ∧
      median [1, 4, 9, 16] = (x + y) / 2 :=
  ⟨median_cases.2.2.1 [1, 4, 9] (by decide),
   median_cases.2.2.2.1 [1, 4, 9, 16] (by decide) (by decide)⟩

/-- C6 evaluated at the failing input: with `late_options` and the counter `late_tsc`, the
first 61 comparisons are unstable and comparisons 62, 63 and 64 are stable, so the loop of
`warm_up` stops with `continuous = 3` on the 64th try; `warm_up` still writes the
warning. -/
theorem warm_up_warns_on_late_convergence :
    ∃ old m1 s m2,
      benchmark.sweep rat_sqrt late_options 0 late_machine = (.ok old, m1) ∧
      warm_up_loop (benchmark.sweep rat_sqrt late_options 0) MAX_TRIES
        { old := old, continuous := 0, tries := 0 } m1 = (.ok s, m2) ∧
      s.continuous = 3 ∧ s.tries = 64 ∧ m2.cerr = [] ∧
      (benchmark.warm_up rat_sqrt late_options 0 late_machine).1 = .ok () ∧
      (benchmark.warm_up rat_sqrt late_options 0 late_machine).2.cerr =
        ["warning: benchmark 't' failed to warm up correctly due to too many tries"] := by
  obtain ⟨m1, hs0, t1, r1, c1⟩ := late_sweep 0 (by decide) late_machine rfl rfl
  obtain ⟨m2, hrun, c2⟩ := late_loop 61 0 rfl m1 t1 r1
  have hcerr : m2.cerr = [] := by rw [c2, c1]; rfl
  refine ⟨_, m1, _, m2, hs0, hrun, rfl, rfl, hcerr, ?_, ?_⟩
  · simp only [benchmark.warm_up, warm_up_with, hs0]
    erw [hrun]
    rfl
  · simp only [benchmark.warm_up, warm_up_with, hs0]
    erw [hrun]
    simp [warn, hcerr, late_entry, MAX_TRIES]

/-- C7: for a configuration with a target and `iteration ≥ step ≥ 1`, the whole-benchmark run
appends one entry per prepared argument, in order, each carrying that argument and the
configuration's name, and keeps the entries already present; without a prepare callback it
appends nothing; and `run()` over a registry holding this configuration alone returns
exactly those entries. -/
theorem run_all_entries (sqrt : ℚ → ℚ) (opts : options) (t : Nat)
    (ht : opts.target = some t) (h1 : 1 ≤ opts.step) (h2 : opts.step ≤ opts.iteration)
    (entries : List entry) (m : Machine) :
    (∀ fn, opts.prepare = some fn →
      (∃ es m1, benchmark.run_all sqrt opts entries m = (.ok (), entries ++ es, m1) ∧
        es.length = (fn []).length ∧
        es.map (fun e => e.arg) = fn [] ∧ (∀ e ∈ es, e.name = opts.name)) ∧
      (∃ es m1, run sqrt [opts] m = (.ok es, m1) ∧
        es.length = (fn []).length ∧
        es.map (fun e => e.arg) = fn [] ∧ (∀ e ∈ es, e.name = opts.name))) ∧
    (opts.prepare = none →
      benchmark.run_all sqrt opts entries m = (.ok (), entries, m) ∧
      run sqrt [opts] m = (.ok [], m)) := by
  have key : ∀ (l : List arg) (es : List entry),
      es.map (fun e => (e.name, e.arg)) = l.map (fun a => (opts.name, a)) →
      es.length = l.length ∧ es.map (fun e => e.arg) = l ∧ ∀ e ∈ es, e.name = opts.name := by
    intro l es h
    refine ⟨?_, ?_, ?_⟩
    · simpa using congrArg List.length h
    · have := congrArg (List.map Prod.snd) h
      simpa [List.map_map, Function.comp_def] using this
    · intro e he
      have hmem : (e.name, e.arg) ∈ l.map (fun a => (opts.name, a)) := by
        rw [← h]; exact List.mem_map_of_mem (fun e => (e.name, e.arg)) he
      obtain ⟨a, -, ha⟩ := List.mem_map.mp hmem
      exact (congrArg Prod.fst ha).symm
  refine ⟨?_, ?_⟩
  · intro fn hfn
    refine ⟨?_, ?_⟩
    · obtain ⟨es, m1, hrun, hmap⟩ := run_loop_some sqrt opts t ht h1 h2 (fn []) entries m
      exact ⟨es, m1, by simp only [benchmark.run_all, hfn, hrun], key _ _ hmap⟩
    · obtain ⟨es, m1, hrun, hmap⟩ := run_loop_some sqrt opts t ht h1 h2 (fn []) [] m
      refine ⟨es, m1, ?_, key _ _ hmap⟩
      simp only [run, run_registry, benchmark.run_all, hfn, hrun, List.nil_append]
  · intro hnone
    simp only [run, run_registry, benchmark.run_all, hnone, run_loop, and_self]

theorem run_all_entries_witness :
    (∀ fn, (some (fun _ => [5, 10, 15]) : prepare_fn) = some fn →
      (∃ es m1, benchmark.run_all rat_sqrt
          { name := "test", target := some 1, prepare := some (fun _ => [5, 10, 15]) } []
          { tsc := fun n => 7 * n, reads := 0, calls := [], cerr := [] } =
            (.ok (), [] ++ es, m1) ∧
        es.length = (fn []).length ∧
        es.map (fun e => e.arg) = fn [] ∧ (∀ e ∈ es, e.name = "test")) ∧
      (∃ es m1, run rat_sqrt
          [{ name := "test", target := some 1, prepare := some (fun _ => [5, 10, 15]) }]
          { tsc := fun n => 7 * n, reads := 0, calls := [], cerr := [] } = (.ok es, m1) ∧
        es.length = (fn []).length ∧
        es.map (fun e => e.arg) = fn [] ∧ (∀ e ∈ es, e.name = "test"))) ∧
    ((some (fun _ => [5, 10, 15]) : prepare_fn) = none →
      benchmark.run_all rat_sqrt
          { name := "test", target := some 1, prepare := some (fun _ => [5, 10, 15]) } []
          { tsc := fun n => 7 * n, reads := 0, calls := [], cerr := [] } =
        (.ok (), [], { tsc := fun n => 7 * n, reads := 0, calls := [], cerr := [] }) ∧
      run rat_sqrt
          [{ name := "test", target := some 1, prepare := some (fun _ => [5, 10, 15]) }]
          { tsc := fun n => 7 * n, reads := 0, calls := [], cerr := [] } =
        (.ok [], { tsc := fun n => 7 * n, reads := 0, calls := [], cerr := [] })) :=
  run_all_entries rat_sqrt
    { name := "test", target := some 1, prepare := some (fun _ => [5, 10, 15]) } 1 rfl
    (by decide) (by decide) []
    { tsc := fun n => 7 * n, reads := 0, calls := [], cerr := [] }

/-- C8: constructing a benchmark with a null target throws the invalid-target error and
leaves the registry as it was; with a non-null target it succeeds and appends exactly one
configuration with that name and target, no prepare callback, `iteration = 10000` and
`step = 20`, after the configurations already registered. -/
theorem create_registers :
    (∀ (name : String) (registry : List options),
      benchmark.create name none registry =
        (.error (.invalid_argument "target not specified"), registry)) ∧
    (∀ (name : String) (t : Nat) (registry : List options),
      benchmark.create name (some t) registry =
        (.ok { _options := registry.length },
         registry ++ [{ name := name, target := some t, prepare := none,
                        iteration := 10000, step := 20 }])) := by
  refine ⟨fun name registry => rfl, fun name t registry => ?_⟩
  simp only [benchmark.create, assign, Option.isNone_some, Bool.false_eq_true, if_false,
    modify_last]

/-- C9: when every sweep returns the same CV value `c`, each of the first three comparisons
is judged stable, the loop stops with `continuous = 3` and `tries = 3` after four sweeps in
all, and `warm_up` returns the machine as the fourth sweep left it: no warning is written. -/
theorem warm_up_noise_free (sweep : Machine → Except Err entry × Machine) (c : ℚ)
    (hcv : ∀ m, ∃ e m1, sweep m = (.ok e, m1) ∧ e.cv = c) (m : Machine) :
    ∃ e0 m1 e1 m2 e2 m3 e3 m4,
      sweep m = (.ok e0, m1) ∧ sweep m1 = (.ok e1, m2) ∧
      sweep m2 = (.ok e2, m3) ∧ sweep m3 = (.ok e3, m4) ∧
      warm_up_loop sweep 1 { old := e0, continuous := 0, tries := 0 } m1 =
        (.ok { old := e1, continuous := 1, tries := 1 }, m2) ∧
      warm_up_loop sweep 2 { old := e0, continuous := 0, tries := 0 } m1 =
        (.ok { old := e2, continuous := 2, tries := 2 }, m3) ∧
      warm_up_loop sweep MAX_TRIES { old := e0, continuous := 0, tries := 0 } m1 =
        (.ok { old := e3, continuous := 3, tries := 3 }, m4) ∧
      3 ≤ MAX_TRIES ∧
      warm_up_with sweep m = (.ok (), m4) := by
  obtain ⟨e0, m1, h0, c0⟩ := hcv m
  obtain ⟨e1, m2, h1, c1⟩ := hcv m1
  obtain ⟨e2, m3, h2, c2⟩ := hcv m2
  obtain ⟨e3, m4, h3, c3⟩ := hcv m3
  have s1 : ∀ fuel, warm_up_loop sweep (fuel + 1) { old := e0, continuous := 0, tries := 0 } m1
      = warm_up_loop sweep fuel { old := e1, continuous := 1, tries := 1 } m2 := by
    intro fuel
    rw [warm_up_loop_step sweep fuel { old := e0, continuous := 0, tries := 0 } m1 m2 e1 rfl h1,
      warm_body_same _ e1 (by rw [c1, c0])]
  have s2 : ∀ fuel, warm_up_loop sweep (fuel + 1) { old := e1, continuous := 1, tries := 1 } m2
      = warm_up_loop sweep fuel { old := e2, continuous := 2, tries := 2 } m3 := by
    intro fuel
    rw [warm_up_loop_step sweep fuel { old := e1, continuous := 1, tries := 1 } m2 m3 e2 rfl h2,
      warm_body_same _ e2 (by rw [c2, c1])]
  have s3 : ∀ fuel, warm_up_loop sweep (fuel + 1) { old := e2, continuous := 2, tries := 2 } m3
      = warm_up_loop sweep fuel { old := e3, continuous := 3, tries := 3 } m4 := by
    intro fuel
    rw [warm_up_loop_step sweep fuel { old := e2, continuous := 2, tries := 2 } m3 m4 e3 rfl h3,
      warm_body_same _ e3 (by rw [c3, c2])]
  have hfin : warm_up_loop sweep MAX_TRIES { old := e0, continuous := 0, tries := 0 } m1 =
      (.ok { old := e3, continuous := 3, tries := 3 }, m4) := by
    show warm_up_loop sweep (61 + 1 + 1 + 1) _ m1 = _
    rw [s1, s2, s3]
    exact warm_up_loop_exit sweep _ _ m4 rfl
  refine ⟨e0, m1, e1, m2, e2, m3, e3, m4, h0, h1, h2, h3, ?_, ?_, hfin, by decide, ?_⟩
  · rw [s1]; rfl
  · rw [s1, s2]; rfl
  · simp only [warm_up_with, h0, hfin]
    rw [if_neg (by decide)]

theorem warm_up_noise_free_witness :
    ∃ e0 m1 e1 m2 e2 m3 e3 m4,
      benchmark.sweep rat_sqrt unit_options 5
        { tsc := fun n => n * n, reads := 0, calls := [], cerr := [] } = (.ok e0, m1) ∧
      benchmark.sweep rat_sqrt unit_options 5 m1 = (.ok e1, m2) ∧
      benchmark.sweep rat_sqrt unit_options 5 m2 = (.ok e2, m3) ∧
      benchmark.sweep rat_sqrt unit_options 5 m3 = (.ok e3, m4) ∧
      warm_up_loop (benchmark.sweep rat_sqrt unit_options 5) 1
        { old := e0, continuous := 0, tries := 0 } m1 =
        (.ok { old := e1, continuous := 1, tries := 1 }, m2) ∧
      warm_up_loop (benchmark.sweep rat_sqrt unit_options 5) 2
        { old := e0, continuous := 0, tries := 0 } m1 =
        (.ok { old := e2, continuous := 2, tries := 2 }, m3) ∧
      warm_up_loop (benchmark.sweep rat_sqrt unit_options 5) MAX_TRIES
        { old := e0, continuous := 0, tries := 0 } m1 =
        (.ok { old := e3, continuous := 3, tries := 3 }, m4) ∧
      3 ≤ MAX_TRIES ∧
      warm_up_with (benchmark.sweep rat_sqrt unit_options 5)
        { tsc := fun n => n * n, reads := 0, calls := [], cerr := [] } = (.ok (), m4) :=
  warm_up_noise_free (benchmark.sweep rat_sqrt unit_options 5) 0 unit_sweep_cv
    { tsc := fun n => n * n, reads := 0, calls := [], cerr := [] }

/-- C10: for a configuration with a target and `iteration ≥ step ≥ 1`, `warm_up` returns;
its loop stops after at least 3 and at most 64 tries, having made one sweep per try after the
initial one (so between 4 and 65 sweeps, each of `4 * (iteration / step)` counter reads);
and at every point of the loop `continuous ≤ 3`, `continuous ≤ tries` and `tries ≤ 64`. -/
theorem warm_up_bounded (sqrt : ℚ → ℚ) (opts : options) (a : arg) (m : Machine) (t : Nat)
    (ht : opts.target = some t) (h1 : 1 ≤ opts.step) (h2 : opts.step ≤ opts.iteration) :
    ∃ old m1, benchmark.sweep sqrt opts a m = (.ok old, m1) ∧
      (∀ k, ∃ s mk, warm_up_loop (benchmark.sweep sqrt opts a) k
          { old := old, continuous := 0, tries := 0 } m1 = (.ok s, mk) ∧
        s.continuous ≤ 3 ∧ s.continuous ≤ s.tries ∧ s.tries ≤ 64) ∧
      ∃ s m2, warm_up_loop (benchmark.sweep sqrt opts a) MAX_TRIES
          { old := old, continuous := 0, tries := 0 } m1 = (.ok s, m2) ∧
        warm_cond s = false ∧ 3 ≤ s.tries ∧ s.tries ≤ 64 ∧
        1 ≤ opts.iteration / opts.step ∧
        m2.reads = m.reads + (s.tries + 1) * (4 * (opts.iteration / opts.step)) ∧
        ∃ m3, benchmark.warm_up sqrt opts a m = (.ok (), m3) ∧ m3.reads = m2.reads := by
  have hs : ∀ m, ∃ e m1, benchmark.sweep sqrt opts a m = (.ok e, m1) ∧
      m1.reads = m.reads + 4 * (opts.iteration / opts.step) ∧ m1.cerr = m.cerr := by
    intro m
    obtain ⟨e, m1, h, -, -, -, hr, hc⟩ := sweep_some sqrt opts a m t ht h1 h2
    exact ⟨e, m1, h, hr, hc⟩
  obtain ⟨old, m1, h0, hr0, -⟩ := hs m
  refine ⟨old, m1, h0, ?_, ?_⟩
  · intro k
    obtain ⟨s, mk, hrun, a1, a2, a3, -⟩ :=
      warm_up_loop_run _ _ hs k { old := old, continuous := 0, tries := 0 } m1
        (Nat.zero_le _) le_rfl (Nat.zero_le _)
    exact ⟨s, mk, hrun, a1, a2, a3⟩
  · obtain ⟨s, m2, hrun, a1, a2, a3, -, -, a6, a7, -⟩ :=
      warm_up_loop_run _ _ hs MAX_TRIES { old := old, continuous := 0, tries := 0 } m1
        (Nat.zero_le _) le_rfl (Nat.zero_le _)
    have hc : warm_cond s = false := a6 (by simp)
    have h3 : 3 ≤ s.tries := by
      have hc2 := hc
      simp only [warm_cond, Bool.and_eq_false_iff, decide_eq_false_iff_not, MAX_TRIES] at hc2
      have a3b : s.tries ≤ 64 := a3
      omega
    have hdiv : 1 ≤ opts.iteration / opts.step := (Nat.one_le_div_iff (by omega)).mpr h2
    refine ⟨s, m2, hrun, hc, h3, a3, hdiv, ?_, ?_⟩
    · rw [a7, hr0]
      simp only [Nat.sub_zero, Nat.add_mul, Nat.one_mul]
      omega
    · simp only [benchmark.warm_up, warm_up_with, h0, hrun]
      split_ifs
      · exact ⟨_, rfl, rfl⟩
      · exact ⟨_, rfl, rfl⟩

theorem warm_up_bounded_witness :
    ∃ old m1, benchmark.sweep rat_sqrt { name := "t", target := some 1 } 5
        { tsc := fun n => 3 * n, reads := 0, calls := [], cerr := [] } = (.ok old, m1) ∧
      (∀ k, ∃ s mk, warm_up_loop (benchmark.sweep rat_sqrt { name := "t", target := some 1 } 5)
          k { old := old, continuous := 0, tries := 0 } m1 = (.ok s, mk) ∧
        s.continuous ≤ 3 ∧ s.continuous ≤ s.tries ∧ s.tries ≤ 64) ∧
      ∃ s m2, warm_up_loop (benchmark.sweep rat_sqrt { name := "t", target := some 1 } 5)
          MAX_TRIES { old := old, continuous := 0, tries := 0 } m1 = (.ok s, m2) ∧
        warm_cond s = false ∧ 3 ≤ s.tries ∧ s.tries ≤ 64 ∧
        1 ≤ 10000 / 20 ∧
        m2.reads = 0 + (s.tries + 1) * (4 * (10000 / 20)) ∧
        ∃ m3, benchmark.warm_up rat_sqrt { name := "t", target := some 1 } 5
          { tsc := fun n => 3 * n, reads := 0, calls := [], cerr := [] } = (.ok (), m3) ∧
          m3.reads = m2.reads :=
  warm_up_bounded rat_sqrt { name := "t", target := some 1 } 5
    { tsc := fun n => 3 * n, reads := 0, calls := [], cerr := [] } 1 rfl (by decide) (by decide)

/-! ## Auxiliary facts on aggregation, the sweep schedule and the report -/

theorem foldl_sq_eq_sum (v : List ℚ) (mn z : ℚ) :
    v.foldl (fun acc x => acc + (mn - x) * (mn - x)) z =
      z + (v.map (fun x => (mn - x) * (mn - x))).sum := by
  induction v generalizing z with
  | nil => simp
  | cons x xs ih => simp [ih, add_assoc]

theorem mean_eq_sum (v : List ℚ) : mean v = v.sum / (v.length : ℚ) := by
  simp [mean, foldl_add_eq_sum]

theorem sort_perm (v : List ℚ) : (v.insertionSort (fun x y => x ≤ y)).Perm v :=
  List.perm_insertionSort _ v

theorem sort_sorted (v : List ℚ) : (v.insertionSort (fun x y => x ≤ y)).Sorted (fun x y => x ≤ y) :=
  List.sorted_insertionSort _ v

theorem sort_eq_of_perm (v w : List ℚ) (h : v.Perm w) :
    v.insertionSort (fun x y => x ≤ y) = w.insertionSort (fun x y => x ≤ y) :=
  List.eq_of_perm_of_sorted ((sort_perm v).trans (h.trans (sort_perm w).symm))
    (sort_sorted v) (sort_sorted w)

theorem mean_nonneg (v : List ℚ) (h : ∀ x ∈ v, 0 ≤ x) : 0 ≤ mean v := by
  rw [mean_eq_sum]
  exact div_nonneg (List.sum_nonneg h) (Nat.cast_nonneg _)

theorem stddev_nonneg (sqrt : ℚ → ℚ) (hsqrt : ∀ x, 0 ≤ x → 0 ≤ sqrt x) (v : List ℚ) (mn : ℚ) :
    0 ≤ stddev sqrt v mn := by
  unfold stddev
  apply hsqrt
  rw [foldl_sq_eq_sum, zero_add]
  apply div_nonneg _ (Nat.cast_nonneg _)
  apply List.sum_nonneg
  intro y hy
  obtain ⟨x, -, rfl⟩ := List.mem_map.mp hy
  exact mul_self_nonneg _

theorem cv_nonneg (sd mn : ℚ) (hsd : 0 ≤ sd) (hmn : 0 ≤ mn) : 0 ≤ cv sd mn := by
  unfold cv
  split
  · exact le_rfl
  · exact div_nonneg hsd hmn

theorem median_between (v : List ℚ) (lo hi : ℚ) (hne : v ≠ [])
    (h : ∀ x ∈ v, lo ≤ x ∧ x ≤ hi) : lo ≤ median v ∧ median v ≤ hi := by
  have hpos : 0 < v.length := List.length_pos.mpr hne
  have h0 : v.length ≠ 0 := by omega
  have hlt : v.length / 2 < v.length := by omega
  have hlt1 : v.length / 2 - 1 < v.length := by omega
  have hb := h _ (List.getElem_mem hlt)
  have ha := h _ (List.getElem_mem hlt1)
  by_cases hodd : v.length % 2 = 1
  · simpa [median, h0, hodd, List.getD, List.getElem?_eq_getElem hlt] using hb
  · have e1 : v.getD (v.length / 2) 0 = v[v.length / 2] := by
      simp [List.getD, List.getElem?_eq_getElem hlt]
    have e2 : v.getD (v.length / 2 - 1) 0 = v[v.length / 2 - 1] := by
      simp [List.getD, List.getElem?_eq_getElem hlt1]
    simp only [median, h0, hodd, if_false, e1, e2]
    constructor
    · linarith [ha.1, hb.1]
    · linarith [ha.2, hb.2]

theorem aggregate_nonneg (sqrt : ℚ → ℚ) (hsqrt : ∀ x, 0 ≤ x → 0 ≤ sqrt x) (name : String)
    (a : arg) (samples : List ℚ) (hne : samples ≠ []) (hpos : ∀ x ∈ samples, 0 ≤ x) :
    0 ≤ (aggregate sqrt name a samples).mean ∧ 0 ≤ (aggregate sqrt name a samples).median ∧
      0 ≤ (aggregate sqrt name a samples).stddev ∧ 0 ≤ (aggregate sqrt name a samples).cv := by
  have hp := sort_perm samples
  have hs : ∀ x ∈ samples.insertionSort (fun x y => x ≤ y), 0 ≤ x :=
    fun x hx => hpos x (hp.mem_iff.mp hx)
  have hne2 : samples.insertionSort (fun x y => x ≤ y) ≠ [] := by
    intro h0
    rw [h0] at hp
    exact hne hp.symm.eq_nil
  have hm := mean_nonneg _ hs
  have hsd := stddev_nonneg sqrt hsqrt (samples.insertionSort (fun x y => x ≤ y))
    (mean (samples.insertionSort (fun x y => x ≤ y)))
  have hsum : ∀ x ∈ samples.insertionSort (fun x y => x ≤ y),
      0 ≤ x ∧ x ≤ (samples.insertionSort (fun x y => x ≤ y)).sum := by
    intro x hx
    exact ⟨hs x hx, List.single_le_sum hs x hx⟩
  exact ⟨hm, (median_between _ _ _ hne2 hsum).1, hsd, cv_nonneg _ _ hsd hm⟩

theorem sweep_aggregate (sqrt : ℚ → ℚ) (opts : options) (a : arg) (m : Machine) (t : Nat)
    (ht : opts.target = some t) (h1 : 1 ≤ opts.step) (h2 : opts.step ≤ opts.iteration) :
    ∃ samples m1, sample_loop opts a (opts.iteration / opts.step) m = (.ok samples, m1) ∧
      samples.length = opts.iteration / opts.step ∧
      benchmark.sweep sqrt opts a m = (.ok (aggregate sqrt opts.name a samples), m1) := by
  obtain ⟨samples, m1, hs, hlen, -⟩ :=
    sample_loop_some opts a t ht (opts.iteration / opts.step) m
  have h0 : opts.step ≠ 0 := by omega
  refine ⟨samples, m1, hs, hlen, ?_⟩
  simp only [benchmark.sweep, if_neg (not_lt.mpr h2), if_neg h0, hs]
  rfl

theorem sample_loop_nonneg (opts : options) (a : arg) (count : Nat) (m : Machine)
    (samples : List ℚ) (m1 : Machine) (h : sample_loop opts a count m = (.ok samples, m1)) :
    ∀ x ∈ samples, 0 ≤ x := by
  induction count generalizing samples m1 with
  | zero =>
    simp only [sample_loop, Prod.mk.injEq, Except.ok.injEq] at h
    rw [← h.1]
    simp
  | succ k ih =>
    simp only [sample_loop] at h
    rcases hk : sample_loop opts a k m with ⟨r, mk⟩
    cases r with
    | error e => simp [hk] at h
    | ok xs =>
      rw [hk] at h
      simp only at h
      rcases hm : benchmark.measure opts a ((k + 1) * opts.step % WORD) mk with ⟨r2, m2⟩
      cases r2 with
      | error e => simp [hm] at h
      | ok d =>
        rw [hm] at h
        simp only [Prod.mk.injEq, Except.ok.injEq] at h
        have hd : 0 ≤ d := by
          cases ht : opts.target with
          | none =>
            cases hi : (k + 1) * opts.step % WORD with
            | zero =>
              rw [hi] at hm
              simp [benchmark.measure, rdtsc, rdtscp, invoke_loop] at hm
              rw [← hm.1]
            | succ j =>
              rw [hi] at hm
              simp [benchmark.measure, rdtsc, rdtscp, invoke_loop, invoke, ht] at hm
          | some t =>
            rw [measure_some opts a _ mk t ht] at hm
            simp only [Prod.mk.injEq, Except.ok.injEq] at hm
            rw [← hm.1]
            positivity
        intro x hx
        rw [← h.1] at hx
        rcases List.mem_append.mp hx with hx | hx
        · exact ih xs mk hk x hx
        · simp only [List.mem_singleton] at hx
          rw [hx]; exact hd

theorem exists_smallest (v : List ℚ) (hne : v ≠ []) : ∃ lo ∈ v, ∀ x ∈ v, lo ≤ x := by
  induction v with
  | nil => exact absurd rfl hne
  | cons y ys ih =>
    by_cases hys : ys = []
    · subst hys
      exact ⟨y, by simp, by simp⟩
    · obtain ⟨lo, hlo, hmin⟩ := ih hys
      by_cases hle : y ≤ lo
      · refine ⟨y, by simp, ?_⟩
        intro x hx
        rcases List.mem_cons.mp hx with h | h
        · rw [h]
        · exact le_trans hle (hmin x h)
      · refine ⟨lo, List.mem_cons_of_mem _ hlo, ?_⟩
        intro x hx
        rcases List.mem_cons.mp hx with h | h
        · rw [h]; exact le_of_lt (not_le.mp hle)
        · exact hmin x h

theorem exists_largest (v : List ℚ) (hne : v ≠ []) : ∃ hi ∈ v, ∀ x ∈ v, x ≤ hi := by
  induction v with
  | nil => exact absurd rfl hne
  | cons y ys ih =>
    by_cases hys : ys = []
    · subst hys
      exact ⟨y, by simp, by simp⟩
    · obtain ⟨hi, hhi, hmax⟩ := ih hys
      by_cases hle : hi ≤ y
      · refine ⟨y, by simp, ?_⟩
        intro x hx
        rcases List.mem_cons.mp hx with h | h
        · rw [h]
        · exact le_trans (hmax x h) hle
      · refine ⟨hi, List.mem_cons_of_mem _ hhi, ?_⟩
        intro x hx
        rcases List.mem_cons.mp hx with h | h
        · rw [h]; exact le_of_lt (not_le.mp hle)
        · exact hmax x h

theorem mean_ref_eq (v : List ℚ) : mean v = mean_ref v := by
  rw [mean_eq_sum, mean_ref]

theorem stddev_ref_eq (sqrt : ℚ → ℚ) (v : List ℚ) :
    stddev sqrt v (mean v) = stddev_ref sqrt v := by
  unfold stddev stddev_ref
  rw [foldl_sq_eq_sum, zero_add, ← mean_ref_eq]
  have hmap : v.map (fun x => (mean v - x) * (mean v - x)) =
      v.map (fun xi => (xi - mean v) ^ 2) := by
    apply List.map_congr_left
    intro x _
    ring
  rw [hmap]
  exact congrArg sqrt (by ring)

theorem mean_ref_perm (v w : List ℚ) (h : v.Perm w) : mean_ref v = mean_ref w := by
  unfold mean_ref
  rw [h.sum_eq, h.length_eq]

theorem stddev_ref_perm (sqrt : ℚ → ℚ) (v w : List ℚ) (h : v.Perm w) :
    stddev_ref sqrt v = stddev_ref sqrt w := by
  unfold stddev_ref
  rw [mean_ref_perm v w h, (h.map _).sum_eq, h.length_eq]

theorem rat_sqrt_nonneg (x : ℚ) (_h : 0 ≤ x) : 0 ≤ rat_sqrt x := by
  unfold rat_sqrt
  positivity

theorem assign_frame (registry : List options) (b : benchmark) (f : options → options)
    (o : options) (ho : registry[b._options]? = some o) :
    (assign registry b f).length = registry.length ∧
    (assign registry b f)[b._options]? = some (f o) ∧
    (∀ i, i ≠ b._options → (assign registry b f)[i]? = registry[i]?) := by
  refine ⟨by simp [assign], ?_, ?_⟩
  · simp [assign, ho]
  · intro i hi
    simp [assign, List.getElem?_modify_ne _ _ (Ne.symm hi)]

theorem measure_each_snoc (opts : options) (a : arg) (l : List Nat) (x : Nat) (m : Machine) :
    measure_each opts a (l ++ [x]) m =
      (match measure_each opts a l m with
       | (.error e, m1) => (.error e, m1)
       | (.ok ds, m1) =>
         match benchmark.measure opts a x m1 with
         | (.error e, m2) => (.error e, m2)
         | (.ok d, m2) => (.ok (ds ++ [d]), m2)) := by
  induction l generalizing m with
  | nil =>
    simp only [List.nil_append, measure_each]
  | cons y ys ih =>
    have hcons : measure_each opts a (y :: ys ++ [x]) m =
        (match benchmark.measure opts a y m with
         | (.error e, m1) => (.error e, m1)
         | (.ok d, m1) =>
           match measure_each opts a (ys ++ [x]) m1 with
           | (.error e, m2) => (.error e, m2)
           | (.ok ds, m2) => (.ok (d :: ds), m2)) := rfl
    rw [hcons]
    simp only [measure_each]
    rcases benchmark.measure opts a y m with ⟨r, m1⟩
    cases r with
    | error e => rfl
    | ok d =>
      simp only [ih]
      rcases measure_each opts a ys m1 with ⟨r2, m2⟩
      cases r2 with
      | error e => rfl
      | ok ds =>
        simp only
        rcases benchmark.measure opts a x m2 with ⟨r3, m3⟩
        cases r3 with
        | error e => rfl
        | ok d2 => simp

theorem counts_succ (step n : Nat) :
    (List.range (n + 1)).map (fun k => (k + 1) * step) =
      (List.range n).map (fun k => (k + 1) * step) ++ [(n + 1) * step] := by
  rw [List.range_succ, List.map_append]
  rfl

theorem sample_loop_eq_measure_each (opts : options) (a : arg) (count : Nat) (m : Machine)
    (hw : count * opts.step < WORD) :
    sample_loop opts a count m =
      measure_each opts a ((List.range count).map (fun k => (k + 1) * opts.step)) m := by
  induction count with
  | zero => rfl
  | succ k ih =>
    have hk : k * opts.step < WORD :=
      lt_of_le_of_lt (Nat.mul_le_mul_right _ (Nat.le_succ k)) hw
    rw [counts_succ, measure_each_snoc, ← ih hk]
    simp only [sample_loop, Nat.mod_eq_of_lt hw]

theorem measure_each_some (opts : options) (a : arg) (t : Nat) (ht : opts.target = some t)
    (l : List Nat) (m : Machine) :
    ∃ ds m1, measure_each opts a l m = (.ok ds, m1) ∧ ds.length = l.length ∧
      m1.calls = m.calls ++ l.flatMap (fun it => List.replicate it (t, a)) ∧
      m1.reads = m.reads + 4 * l.length := by
  induction l generalizing m with
  | nil => exact ⟨[], m, rfl, rfl, by simp, rfl⟩
  | cons x xs ih =>
    obtain ⟨ds, m1, h, hlen, hcalls, hreads⟩ := ih
      { m with reads := m.reads + 4, calls := m.calls ++ List.replicate x (t, a) }
    simp only [measure_each, measure_some opts a x m t ht, h]
    refine ⟨_, m1, rfl, by simp [hlen], ?_, ?_⟩
    · rw [hcalls]; simp
    · rw [hreads]; simp only [List.length_cons]; omega

theorem counts_sum (step n : Nat) :
    ((List.range n).map (fun k => (k + 1) * step)).sum = step * (n * (n + 1) / 2) := by
  induction n with
  | zero => simp
  | succ k ih =>
    rw [counts_succ, List.sum_append, ih]
    have h : (k + 1) * (k + 1 + 1) = k * (k + 1) + 2 * (k + 1) := by ring
    rw [h, Nat.add_mul_div_left _ _ (by decide : 0 < 2)]
    simp only [List.sum_cons, List.sum_nil]
    ring

theorem flatMap_replicate_length (t : Nat) (a : arg) (l : List Nat) :
    (l.flatMap (fun it => List.replicate it (t, a))).length = l.sum := by
  induction l with
  | nil => rfl
  | cons x xs ih => simp [ih]

theorem sweep_schedule_facts (sqrt : ℚ → ℚ) (opts : options) (a : arg) (m : Machine) (t : Nat)
    (ht : opts.target = some t) (h1 : 1 ≤ opts.step) (h2 : opts.step ≤ opts.iteration)
    (hw : opts.iteration < WORD) :
    ∃ samples m1,
      sample_loop opts a (opts.iteration / opts.step) m = (.ok samples, m1) ∧
      measure_each opts a (schedule opts) m = (.ok samples, m1) ∧
      samples.length = opts.iteration / opts.step ∧
      m1.calls = m.calls ++ (schedule opts).flatMap (fun it => List.replicate it (t, a)) ∧
      m1.reads = m.reads + 4 * (opts.iteration / opts.step) ∧
      benchmark.sweep sqrt opts a m = (.ok (aggregate sqrt opts.name a samples), m1) := by
  have hlt : opts.iteration / opts.step * opts.step < WORD :=
    lt_of_le_of_lt (Nat.div_mul_le_self _ _) hw
  have heq := sample_loop_eq_measure_each opts a (opts.iteration / opts.step) m hlt
  obtain ⟨ds, m1, hme, hlen, hcalls, hreads⟩ := measure_each_some opts a t ht (schedule opts) m
  have hlen2 : ds.length = opts.iteration / opts.step := by
    rw [hlen]; simp [schedule]
  have hsl : sample_loop opts a (opts.iteration / opts.step) m = (.ok ds, m1) := by
    rw [heq]; exact hme
  have h0 : opts.step ≠ 0 := by omega
  refine ⟨ds, m1, hsl, hme, hlen2, hcalls, ?_, ?_⟩
  · rw [hreads]; simp [schedule]
  · simp only [benchmark.sweep, if_neg (not_lt.mpr h2), if_neg h0, hsl]
    rfl

theorem sweep_calls_length (sqrt : ℚ → ℚ) (opts : options) (a : arg) (m : Machine) (t : Nat)
    (ht : opts.target = some t) (h1 : 1 ≤ opts.step) (h2 : opts.step ≤ opts.iteration)
    (hw : opts.iteration < WORD) :
    ∃ e m1, benchmark.sweep sqrt opts a m = (.ok e, m1) ∧
      m1.calls.length = m.calls.length +
        opts.step * (opts.iteration / opts.step * (opts.iteration / opts.step + 1) / 2) := by
  obtain ⟨samples, m1, -, -, -, hcalls, -, hsw⟩ :=
    sweep_schedule_facts sqrt opts a m t ht h1 h2 hw
  refine ⟨_, m1, hsw, ?_⟩
  rw [hcalls, List.length_append, flatMap_replicate_length, schedule, counts_sum]

theorem foldl_max_le (l : List Nat) (init : Nat) :
    init ≤ l.foldl max init ∧ ∀ x ∈ l, x ≤ l.foldl max init := by
  induction l generalizing init with
  | nil => simp
  | cons y ys ih =>
    obtain ⟨h1, h2⟩ := ih (max init y)
    refine ⟨le_trans (le_max_left _ _) h1, ?_⟩
    intro x hx
    rcases List.mem_cons.mp hx with h | h
    · rw [h]; exact le_trans (le_max_right _ _) h1
    · exact h2 x h

theorem foldl_adapt (l : List formatted_entry) (init : entry_size) :
    l.foldl (fun size f => size.adapt f.size) init =
      { name := (l.map (fun f => f.name.length)).foldl max init.name,
        mean := (l.map (fun f => f.mean.length)).foldl max init.mean,
        median := (l.map (fun f => f.median.length)).foldl max init.median,
        stddev := (l.map (fun f => f.stddev.length)).foldl max init.stddev,
        cv := (l.map (fun f => f.cv.length)).foldl max init.cv } := by
  induction l generalizing init with
  | nil => rfl
  | cons y ys ih =>
    simp only [List.foldl_cons, List.map_cons, ih]
    rfl

theorem fill_length (n : Nat) (c : Char) : (fill n c).length = n := by
  simp [fill, String.length]

theorem padl_length (s : String) (size : Nat) : (padl s size).length = max size s.length := by
  simp only [padl, String.length_append, fill_length]
  omega

theorem padl_fit (s : String) (size : Nat) (h : s.length ≤ size) :
    (padl s size).length = size := by
  rw [padl_length]; omega

theorem table_size_fits (l : List formatted_entry) (f : formatted_entry)
    (hf : f = header ∨ f ∈ l) :
    f.name.length ≤ (table_size l).name ∧ f.mean.length ≤ (table_size l).mean ∧
      f.median.length ≤ (table_size l).median ∧ f.stddev.length ≤ (table_size l).stddev ∧
      f.cv.length ≤ (table_size l).cv := by
  rw [table_size, foldl_adapt]
  rcases hf with rfl | hf
  · exact ⟨(foldl_max_le _ _).1, (foldl_max_le _ _).1, (foldl_max_le _ _).1,
      (foldl_max_le _ _).1, (foldl_max_le _ _).1⟩
  · exact ⟨(foldl_max_le _ _).2 _ (List.mem_map_of_mem (fun f => f.name.length) hf),
      (foldl_max_le _ _).2 _ (List.mem_map_of_mem (fun f => f.mean.length) hf),
      (foldl_max_le _ _).2 _ (List.mem_map_of_mem (fun f => f.median.length) hf),
      (foldl_max_le _ _).2 _ (List.mem_map_of_mem (fun f => f.stddev.length) hf),
      (foldl_max_le _ _).2 _ (List.mem_map_of_mem (fun f => f.cv.length) hf)⟩

theorem past_cell (p : List Char) (x y z : Char) (rest : List Char) (n k : Nat)
    (h : n = p.length + 3 + k) : (p ++ x :: y :: z :: rest)[n]? = rest[k]? := by
  subst h
  rw [List.getElem?_append_right (by omega)]
  have : p.length + 3 + k - p.length = k + 1 + 1 + 1 := by omega
  rw [this]
  simp only [List.getElem?_cons_succ]

theorem bar_of_cell (p : List Char) (x c z : Char) (rest : List Char) (n : Nat)
    (h : n = p.length + 1) : (p ++ x :: c :: z :: rest)[n]? = some c := by
  subst h
  rw [List.getElem?_append_right (by omega)]
  have : p.length + 1 - p.length = 0 + 1 := by omega
  rw [this]
  simp only [List.getElem?_cons_succ, List.getElem?_cons_zero]

theorem row_layout (A B C D E : String) (w : entry_size)
    (hA : A.length = w.name) (hB : B.length = w.mean) (hC : C.length = w.median)
    (hD : D.length = w.stddev) (hE : E.length = w.cv) :
    (A ++ " | " ++ B ++ " | " ++ C ++ " | " ++ D ++ " | " ++ E).length =
        w.name + w.mean + w.median + w.stddev + w.cv + 12 ∧
      (A ++ " | " ++ B ++ " | " ++ C ++ " | " ++ D ++ " | " ++ E).data[w.name + 1]? =
        some '|' ∧
      (A ++ " | " ++ B ++ " | " ++ C ++ " | " ++ D ++ " | " ++ E).data[
        w.name + w.mean + 4]? = some '|' ∧
      (A ++ " | " ++ B ++ " | " ++ C ++ " | " ++ D ++ " | " ++ E).data[
        w.name + w.mean + w.median + 7]? = some '|' ∧
      (A ++ " | " ++ B ++ " | " ++ C ++ " | " ++ D ++ " | " ++ E).data[
        w.name + w.mean + w.median + w.stddev + 10]? = some '|' := by
  have hbar : (" | " : String).data = [' ', '|', ' '] := rfl
  have hlen : (" | " : String).length = 3 := rfl
  have lA : A.data.length = w.name := hA
  have lB : B.data.length = w.mean := hB
  have lC : C.data.length = w.median := hC
  have lD : D.data.length = w.stddev := hD
  refine ⟨?_, ?_, ?_, ?_, ?_⟩
  · simp only [String.length_append, hA, hB, hC, hD, hE, hlen]; omega
  · simp only [String.data_append, hbar, List.append_assoc, List.cons_append, List.nil_append]
    exact bar_of_cell _ _ _ _ _ _ (by omega)
  · simp only [String.data_append, hbar, List.append_assoc, List.cons_append, List.nil_append]
    rw [past_cell _ _ _ _ _ _ (w.mean + 1) (by omega)]
    exact bar_of_cell _ _ _ _ _ _ (by omega)
  · simp only [String.data_append, hbar, List.append_assoc, List.cons_append, List.nil_append]
    rw [past_cell _ _ _ _ _ _ (w.mean + 3 + (w.median + 1)) (by omega),
      past_cell _ _ _ _ _ _ (w.median + 1) (by omega)]
    exact bar_of_cell _ _ _ _ _ _ (by omega)
  · simp only [String.data_append, hbar, List.append_assoc, List.cons_append, List.nil_append]
    rw [past_cell _ _ _ _ _ _ (w.mean + 3 + (w.median + 3 + (w.stddev + 1))) (by omega),
      past_cell _ _ _ _ _ _ (w.median + 3 + (w.stddev + 1)) (by omega),
      past_cell _ _ _ _ _ _ (w.stddev + 1) (by omega)]
    exact bar_of_cell _ _ _ _ _ _ (by omega)

theorem past_mark (p : List Char) (x y : Char) (rest : List Char) (n k : Nat)
    (h : n = p.length + 2 + k) : (p ++ x :: y :: rest)[n]? = rest[k]? := by
  subst h
  rw [List.getElem?_append_right (by omega)]
  have : p.length + 2 + k - p.length = k + 1 + 1 := by omega
  rw [this]
  simp only [List.getElem?_cons_succ]

theorem bar_of_mark (p : List Char) (x c : Char) (rest : List Char) (n : Nat)
    (h : n = p.length + 1) : (p ++ x :: c :: rest)[n]? = some c := by
  subst h
  rw [List.getElem?_append_right (by omega)]
  have : p.length + 1 - p.length = 0 + 1 := by omega
  rw [this]
  simp only [List.getElem?_cons_succ, List.getElem?_cons_zero]

theorem separator_layout (w : entry_size) :
    (separator w).length = w.name + w.mean + w.median + w.stddev + w.cv + 12 ∧
      (separator w).data[w.name + 1]? = some '|' ∧
      (separator w).data[w.name + w.mean + 4]? = some '|' ∧
      (separator w).data[w.name + w.mean + w.median + 7]? = some '|' ∧
      (separator w).data[w.name + w.mean + w.median + w.stddev + 10]? = some '|' := by
  have hmark : (":|" : String).data = [':', '|'] := rfl
  have hlen : (":|" : String).length = 2 := rfl
  have hlen1 : (":" : String).length = 1 := rfl
  have hfill : ∀ n c, (fill n c).data = List.replicate n c := fun _ _ => rfl
  refine ⟨?_, ?_, ?_, ?_, ?_⟩
  · simp only [separator, String.length_append, fill_length, hlen, hlen1]; omega
  · simp only [separator, String.data_append, hmark, hfill, List.append_assoc,
      List.cons_append, List.nil_append]
    exact bar_of_mark _ _ _ _ _ (by simp)
  · simp only [separator, String.data_append, hmark, hfill, List.append_assoc,
      List.cons_append, List.nil_append]
    rw [past_mark _ _ _ _ _ (w.mean + 1 + 1) (by simp; omega)]
    exact bar_of_mark _ _ _ _ _ (by simp)
  · simp only [separator, String.data_append, hmark, hfill, List.append_assoc,
      List.cons_append, List.nil_append]
    rw [past_mark _ _ _ _ _ (w.mean + 1 + 2 + (w.median + 1 + 1)) (by simp; omega),
      past_mark _ _ _ _ _ (w.median + 1 + 1) (by simp)]
    exact bar_of_mark _ _ _ _ _ (by simp)
  · simp only [separator, String.data_append, hmark, hfill, List.append_assoc,
      List.cons_append, List.nil_append]
    rw [past_mark _ _ _ _ _ (w.mean + 1 + 2 + (w.median + 1 + 2 + (w.stddev + 1 + 1)))
        (by simp; omega),
      past_mark _ _ _ _ _ (w.median + 1 + 2 + (w.stddev + 1 + 1)) (by simp),
      past_mark _ _ _ _ _ (w.stddev + 1 + 1) (by simp)]
    exact bar_of_mark _ _ _ _ _ (by simp)

theorem print_row_layout (l : List formatted_entry) (f : formatted_entry)
    (hf : f = header ∨ f ∈ l) :
    (f.print (table_size l)).length =
        (table_size l).name + (table_size l).mean + (table_size l).median +
          (table_size l).stddev + (table_size l).cv + 12 ∧
      (f.print (table_size l)).data[(table_size l).name + 1]? = some '|' ∧
      (f.print (table_size l)).data[(table_size l).name + (table_size l).mean + 4]? =
        some '|' ∧
      (f.print (table_size l)).data[
        (table_size l).name + (table_size l).mean + (table_size l).median + 7]? = some '|' ∧
      (f.print (table_size l)).data[
        (table_size l).name + (table_size l).mean + (table_size l).median +
          (table_size l).stddev + 10]? = some '|' := by
  obtain ⟨h1, h2, h3, h4, h5⟩ := table_size_fits l f hf
  exact row_layout _ _ _ _ _ (table_size l) (padl_fit _ _ h1) (padl_fit _ _ h2)
    (padl_fit _ _ h3) (padl_fit _ _ h4) (padl_fit _ _ h5)

/-! ## The claims, continued -/

/-- C11: with a square root that is non-negative on non-negative numbers, the entry built
from a non-empty sequence of non-negative samples has `mean ≥ 0`, `median ≥ 0`, `stddev ≥ 0`
and `cv ≥ 0`; and the sweep of a configuration with a target and `iteration ≥ step ≥ 1`
returns such an entry. -/
theorem entry_nonneg (sqrt : ℚ → ℚ) (hsqrt : ∀ x, 0 ≤ x → 0 ≤ sqrt x) :
    (∀ (name : String) (a : arg) (samples : List ℚ), samples ≠ [] →
      (∀ x ∈ samples, 0 ≤ x) →
      0 ≤ (aggregate sqrt name a samples).mean ∧ 0 ≤ (aggregate sqrt name a samples).median ∧
        0 ≤ (aggregate sqrt name a samples).stddev ∧ 0 ≤ (aggregate sqrt name a samples).cv) ∧
    (∀ (opts : options) (a : arg) (m : Machine) (t : Nat), opts.target = some t →
      1 ≤ opts.step → opts.step ≤ opts.iteration →
      ∃ e m1, benchmark.sweep sqrt opts a m = (.ok e, m1) ∧
        0 ≤ e.mean ∧ 0 ≤ e.median ∧ 0 ≤ e.stddev ∧ 0 ≤ e.cv) := by
  refine ⟨fun name a samples hne hpos => aggregate_nonneg sqrt hsqrt name a samples hne hpos, ?_⟩
  intro opts a m t ht h1 h2
  obtain ⟨samples, m1, hs, hlen, hsw⟩ := sweep_aggregate sqrt opts a m t ht h1 h2
  have hdiv : 1 ≤ opts.iteration / opts.step := (Nat.one_le_div_iff (by omega)).mpr h2
  have hne : samples ≠ [] := by
    intro h0
    rw [h0] at hlen
    simp at hlen
    omega
  exact ⟨_, m1, hsw, aggregate_nonneg sqrt hsqrt opts.name a samples hne
    (sample_loop_nonneg opts a _ m samples m1 hs)⟩

theorem entry_nonneg_witness :
    (0 ≤ (aggregate rat_sqrt "t" 5 [3, 1]).mean ∧ 0 ≤ (aggregate rat_sqrt "t" 5 [3, 1]).median ∧
      0 ≤ (aggregate rat_sqrt "t" 5 [3, 1]).stddev ∧ 0 ≤ (aggregate rat_sqrt "t" 5 [3, 1]).cv) ∧
    ∃ e m1, benchmark.sweep rat_sqrt { name := "t", target := some 1 } 5
        { tsc := fun n => n * n, reads := 0, calls := [], cerr := [] } = (.ok e, m1) ∧
      0 ≤ e.mean ∧ 0 ≤ e.median ∧ 0 ≤ e.stddev ∧ 0 ≤ e.cv :=
  ⟨(entry_nonneg rat_sqrt rat_sqrt_nonneg).1 "t" 5 [3, 1] (by decide) (by simp),
   (entry_nonneg rat_sqrt rat_sqrt_nonneg).2 { name := "t", target := some 1 } 5
     { tsc := fun n => n * n, reads := 0, calls := [], cerr := [] } 1 rfl (by decide)
     (by decide)⟩

/-- C12: for a non-empty sample sequence the entry's mean is the arithmetic average
`(x_1 + ... + x_n) / n` and its stddev is the population standard deviation
`sqrt ((1 / n) * sum_i (x_i - mean) ^ 2)`, dividing by `n`; the same holds of `mean` and
`stddev` applied to the sequence directly. -/
theorem aggregate_reference (sqrt : ℚ → ℚ) (name : String) (a : arg) (samples : List ℚ)
    (_hne : samples ≠ []) :
    mean samples = mean_ref samples ∧
    stddev sqrt samples (mean samples) = stddev_ref sqrt samples ∧
    (aggregate sqrt name a samples).mean = mean_ref samples ∧
    (aggregate sqrt name a samples).stddev = stddev_ref sqrt samples := by
  refine ⟨mean_ref_eq samples, stddev_ref_eq sqrt samples, ?_, ?_⟩
  · show mean (samples.insertionSort _) = _
    rw [mean_ref_eq, mean_ref_perm _ _ (sort_perm samples)]
  · show stddev sqrt (samples.insertionSort _) (mean (samples.insertionSort _)) = _
    rw [stddev_ref_eq, stddev_ref_perm sqrt _ _ (sort_perm samples)]

theorem aggregate_reference_witness :
    mean [4, 2, 6] = mean_ref [4, 2, 6] ∧
    stddev rat_sqrt [4, 2, 6] (mean [4, 2, 6]) = stddev_ref rat_sqrt [4, 2, 6] ∧
    (aggregate rat_sqrt "t" 5 [4, 2, 6]).mean = mean_ref [4, 2, 6] ∧
    (aggregate rat_sqrt "t" 5 [4, 2, 6]).stddev = stddev_ref rat_sqrt [4, 2, 6] :=
  aggregate_reference rat_sqrt "t" 5 [4, 2, 6] (by decide)

/-- C13, as stated, fails: a configuration with `iteration = 5`, `step = 10` and no prepare
callback runs to completion without any error, because no sweep is ever started. -/
theorem run_all_no_arguments_no_error :
    benchmark.run_all rat_sqrt { name := "t", target := some 1, iteration := 5, step := 10 } []
        { tsc := fun n => n, reads := 0, calls := [], cerr := [] } =
      (.ok (), [], { tsc := fun n => n, reads := 0, calls := [], cerr := [] }) ∧
    ({ name := "t", target := some 1, iteration := 5, step := 10 } : options).iteration <
      ({ name := "t", target := some 1, iteration := 5, step := 10 } : options).step := by
  exact ⟨rfl, by decide⟩

/-- C13, amended: for a configuration with `iteration < step` whose prepare callback yields
at least one argument, the whole-benchmark run throws the configuration error and leaves
the entries and the machine as they were (no target call, no counter read); when there is
no prepare callback, or it yields no argument, the run returns normally, again leaving
entries and machine unchanged. -/
theorem run_all_configuration_error (sqrt : ℚ → ℚ) (opts : options) (entries : List entry)
    (m : Machine) (h : opts.iteration < opts.step) :
    (∀ fn, opts.prepare = some fn → fn [] ≠ [] →
      benchmark.run_all sqrt opts entries m =
        (.error (.out_of_range "step cannot be greater than iteration"), entries, m)) ∧
    (∀ fn, opts.prepare = some fn → fn [] = [] →
      benchmark.run_all sqrt opts entries m = (.ok (), entries, m)) ∧
    (opts.prepare = none → benchmark.run_all sqrt opts entries m = (.ok (), entries, m)) := by
  refine ⟨?_, ?_, ?_⟩
  · intro fn hfn hne
    cases hargs : fn [] with
    | nil => exact absurd hargs hne
    | cons a rest =>
      simp only [benchmark.run_all, hfn, hargs, run_loop, benchmark.warm_up, warm_up_with,
        benchmark.sweep, if_pos h]
  · intro fn hfn hnil
    simp only [benchmark.run_all, hfn, hnil, run_loop]
  · intro hnone
    simp only [benchmark.run_all, hnone, run_loop]

theorem run_all_configuration_error_witness :
    benchmark.run_all rat_sqrt
        { name := "t", target := some 1, prepare := some (fun _ => [5, 10, 15]),
          iteration := 5, step := 10 } []
        { tsc := fun n => n, reads := 0, calls := [], cerr := [] } =
      (.error (.out_of_range "step cannot be greater than iteration"), [],
        { tsc := fun n => n, reads := 0, calls := [], cerr := [] }) :=
  (run_all_configuration_error rat_sqrt
    { name := "t", target := some 1, prepare := some (fun _ => [5, 10, 15]),
      iteration := 5, step := 10 } []
    { tsc := fun n => n, reads := 0, calls := [], cerr := [] } (by decide)).1
    (fun _ => [5, 10, 15]) rfl (by simp)

/-- C14: for a handle `b` onto a registered configuration `o`, each of `prepare(v)`,
`iteration(v)` and `step(v)` replaces `o` by `o` with exactly the named field set to `v`,
keeps all other registered configurations and the length of the registry, and returns the
same handle; a chain of the three therefore sets the three fields of that one
configuration. -/
theorem setters_frame (registry : List options) (b : benchmark) (o : options)
    (ho : registry[b._options]? = some o) (fn : prepare_fn) (n s : Nat) :
    ((b.prepare fn registry).1 = b ∧
      (b.prepare fn registry).2.length = registry.length ∧
      (b.prepare fn registry).2[b._options]? = some { o with prepare := fn } ∧
      ∀ i, i ≠ b._options → (b.prepare fn registry).2[i]? = registry[i]?) ∧
    ((b.iteration n registry).1 = b ∧
      (b.iteration n registry).2.length = registry.length ∧
      (b.iteration n registry).2[b._options]? = some { o with iteration := n } ∧
      ∀ i, i ≠ b._options → (b.iteration n registry).2[i]? = registry[i]?) ∧
    ((b.step s registry).1 = b ∧
      (b.step s registry).2.length = registry.length ∧
      (b.step s registry).2[b._options]? = some { o with step := s } ∧
      ∀ i, i ≠ b._options → (b.step s registry).2[i]? = registry[i]?) ∧
    (((b.prepare fn registry).1.iteration n (b.prepare fn registry).2).1.step s
        ((b.prepare fn registry).1.iteration n (b.prepare fn registry).2).2 =
      (b, assign registry b
        (fun c => { c with prepare := fn, iteration := n, step := s }))) ∧
    (assign registry b (fun c => { c with prepare := fn, iteration := n, step := s }))[
        b._options]? = some { o with prepare := fn, iteration := n, step := s } ∧
    (∀ i, i ≠ b._options →
      (assign registry b (fun c => { c with prepare := fn, iteration := n, step := s }))[i]? =
        registry[i]?) := by
  have hp := assign_frame registry b (fun c => { c with prepare := fn }) o ho
  have hi := assign_frame registry b (fun c => { c with iteration := n }) o ho
  have hs := assign_frame registry b (fun c => { c with step := s }) o ho
  have hc := assign_frame registry b
    (fun c => { c with prepare := fn, iteration := n, step := s }) o ho
  refine ⟨⟨rfl, hp.1, hp.2.1, hp.2.2⟩, ⟨rfl, hi.1, hi.2.1, hi.2.2⟩, ⟨rfl, hs.1, hs.2.1, hs.2.2⟩,
    ?_, hc.2.1, hc.2.2⟩
  simp only [benchmark.prepare, benchmark.iteration, benchmark.step, assign,
    List.modify_modify_eq]
  rfl

theorem setters_frame_witness :
    (((⟨0⟩ : benchmark).prepare none [{ name := "t", target := some 1 }]).1 = ⟨0⟩ ∧
      ((⟨0⟩ : benchmark).iteration 100 [{ name := "t", target := some 1 }]).2[0]? =
        some { name := "t", target := some 1, iteration := 100 } ∧
      ((⟨0⟩ : benchmark).step 5 [{ name := "t", target := some 1 }]).2[0]? =
        some { name := "t", target := some 1, step := 5 }) :=
  ⟨(setters_frame [{ name := "t", target := some 1 }] ⟨0⟩ { name := "t", target := some 1 }
      rfl none 100 5).1.1,
   (setters_frame [{ name := "t", target := some 1 }] ⟨0⟩ { name := "t", target := some 1 }
      rfl none 100 5).2.1.2.2.1,
   (setters_frame [{ name := "t", target := some 1 }] ⟨0⟩ { name := "t", target := some 1 }
      rfl none 100 5).2.2.1.2.2.1⟩

/-- C16: for a configuration with a target, `step ≥ 1` and `step ≤ iteration < 2 ^ 64`, the
sweep makes exactly `iteration / step` single measurements, the `k`-th at iteration count
`k * step`, all with argument `a` (the samples are those of `measure_each` on `schedule`,
and every target call of the sweep has argument `a`), it aggregates a sample sequence of
length `iteration / step`, and that length is 500 for the defaults. -/
theorem sweep_schedule (sqrt : ℚ → ℚ) (opts : options) (a : arg) (m : Machine) (t : Nat)
    (ht : opts.target = some t) (h1 : 1 ≤ opts.step) (h2 : opts.step ≤ opts.iteration)
    (hw : opts.iteration < WORD) :
    (schedule opts).length = opts.iteration / opts.step ∧
    (∀ k, 1 ≤ k → k ≤ opts.iteration / opts.step →
      (schedule opts)[k - 1]? = some (k * opts.step)) ∧
    (∃ samples m1,
      sample_loop opts a (opts.iteration / opts.step) m = (.ok samples, m1) ∧
      measure_each opts a (schedule opts) m = (.ok samples, m1) ∧
      samples.length = opts.iteration / opts.step ∧
      m1.calls = m.calls ++ (schedule opts).flatMap (fun it => List.replicate it (t, a)) ∧
      m1.reads = m.reads + 4 * (opts.iteration / opts.step) ∧
      benchmark.sweep sqrt opts a m = (.ok (aggregate sqrt opts.name a samples), m1)) ∧
    ({} : options).iteration / ({} : options).step = 500 := by
  refine ⟨by simp [schedule], ?_, sweep_schedule_facts sqrt opts a m t ht h1 h2 hw, rfl⟩
  intro k hk1 hk2
  have hlt : k - 1 < opts.iteration / opts.step := by omega
  have hk : k - 1 + 1 = k := by omega
  simp [schedule, List.getElem?_map, List.getElem?_range hlt, hk]

theorem sweep_schedule_witness :
    (schedule { name := "t", target := some 1 }).length = 10000 / 20 ∧
    (∀ k, 1 ≤ k → k ≤ 10000 / 20 →
      (schedule { name := "t", target := some 1 })[k - 1]? = some (k * 20)) ∧
    (∃ samples m1,
      sample_loop { name := "t", target := some 1 } 5 (10000 / 20)
        { tsc := fun n => 2 * n, reads := 0, calls := [], cerr := [] } = (.ok samples, m1) ∧
      measure_each { name := "t", target := some 1 } 5
        (schedule { name := "t", target := some 1 })
        { tsc := fun n => 2 * n, reads := 0, calls := [], cerr := [] } = (.ok samples, m1) ∧
      samples.length = 10000 / 20 ∧
      m1.calls = [] ++ (schedule { name := "t", target := some 1 }).flatMap
        (fun it => List.replicate it (1, 5)) ∧
      m1.reads = 0 + 4 * (10000 / 20) ∧
      benchmark.sweep rat_sqrt { name := "t", target := some 1 } 5
        { tsc := fun n => 2 * n, reads := 0, calls := [], cerr := [] } =
        (.ok (aggregate rat_sqrt "t" 5 samples), m1)) ∧
    ({} : options).iteration / ({} : options).step = 500 :=
  sweep_schedule rat_sqrt { name := "t", target := some 1 } 5
    { tsc := fun n => 2 * n, reads := 0, calls := [], cerr := [] } 1 rfl (by decide) (by decide)
    (by decide)

/-- C17 evaluated at the failing input: a configuration with `step = 0` satisfies
`iteration ≥ step`, so the guard of the sweep lets it pass, and the size
`iteration / step` of the sample vector is an integer division by zero. -/
theorem sweep_step_zero_faults :
    ({ name := "t", target := some 1, step := 0 } : options).step ≤
      ({ name := "t", target := some 1, step := 0 } : options).iteration ∧
    benchmark.sweep rat_sqrt { name := "t", target := some 1, step := 0 } 5
        { tsc := fun n => 2 * n, reads := 0, calls := [], cerr := [] } =
      (.error .fault, { tsc := fun n => 2 * n, reads := 0, calls := [], cerr := [] }) := by
  exact ⟨by decide, rfl⟩

/-- C18, as stated, fails: with `iteration = 4` and `step = 2` one sweep measures at
iteration counts 2 and 4 and so invokes the target 6 times, not 4 times. -/
theorem sweep_invocations_exceed_iteration :
    ∃ e m1, benchmark.sweep rat_sqrt { name := "t", target := some 1, iteration := 4, step := 2 }
        5 { tsc := fun n => 2 * n, reads := 0, calls := [], cerr := [] } = (.ok e, m1) ∧
      m1.calls.length = 6 ∧
      m1.calls.length ≠
        ({ name := "t", target := some 1, iteration := 4, step := 2 } : options).iteration := by
  obtain ⟨e, m1, h, hlen⟩ := sweep_calls_length rat_sqrt
    { name := "t", target := some 1, iteration := 4, step := 2 } 5
    { tsc := fun n => 2 * n, reads := 0, calls := [], cerr := [] } 1 rfl (by decide) (by decide)
    (by decide)
  have h6 : m1.calls.length = 6 := by rw [hlen]; rfl
  exact ⟨e, m1, h, h6, by rw [h6]; decide⟩

/-- C18, amended: for a configuration with a target, `step ≥ 1` and
`step ≤ iteration < 2 ^ 64`, one sweep invokes the target `step * (k * (k + 1) / 2)` times,
where `k = iteration / step`; `iteration` bounds the iteration count of every single
measurement of the sweep. -/
theorem sweep_invocations (sqrt : ℚ → ℚ) (opts : options) (a : arg) (m : Machine) (t : Nat)
    (ht : opts.target = some t) (h1 : 1 ≤ opts.step) (h2 : opts.step ≤ opts.iteration)
    (hw : opts.iteration < WORD) :
    (∃ e m1, benchmark.sweep sqrt opts a m = (.ok e, m1) ∧
      m1.calls.length = m.calls.length +
        opts.step * (opts.iteration / opts.step * (opts.iteration / opts.step + 1) / 2)) ∧
    (∀ it ∈ schedule opts, it ≤ opts.iteration) := by
  refine ⟨sweep_calls_length sqrt opts a m t ht h1 h2 hw, ?_⟩
  intro it hit
  simp only [schedule, List.mem_map, List.mem_range] at hit
  obtain ⟨k, hk, rfl⟩ := hit
  exact le_trans (Nat.mul_le_mul_right _ hk) (Nat.div_mul_le_self _ _)

theorem sweep_invocations_witness :
    (∃ e m1, benchmark.sweep rat_sqrt { name := "t", target := some 1 } 5
        { tsc := fun n => 2 * n, reads := 0, calls := [], cerr := [] } = (.ok e, m1) ∧
      m1.calls.length = 0 + 20 * (10000 / 20 * (10000 / 20 + 1) / 2)) ∧
    (∀ it ∈ schedule { name := "t", target := some 1 }, it ≤ 10000) :=
  sweep_invocations rat_sqrt { name := "t", target := some 1 } 5
    { tsc := fun n => 2 * n, reads := 0, calls := [], cerr := [] } 1 rfl (by decide) (by decide)
    (by decide)

/-- C19: `entry_size::adapt` is the component-wise maximum; each column width used by
`print` is the maximum of the header label's length and the lengths of all formatted cells
of that column; `padl` writes the cell after `size - min size (length)` blanks, so at least
`size` characters and the whole cell; and every line `print` writes (header, separator,
one row per entry) has length `name + mean + median + stddev + cv + 12`, with a `|` at
columns `name + 1`, `name + mean + 4`, `name + mean + median + 7` and
`name + mean + median + stddev + 10`. -/
theorem print_layout (fmt : duration → String) (entries : List entry) :
    (∀ s o : entry_size, s.adapt o =
      { name := max s.name o.name, mean := max s.mean o.mean, median := max s.median o.median,
        stddev := max s.stddev o.stddev, cv := max s.cv o.cv }) ∧
    ((report_size fmt entries).name =
        (entries.map (fun e => (formatted_entry.of_entry fmt e).name.length)).foldl max
          header.name.length ∧
      (report_size fmt entries).mean =
        (entries.map (fun e => (formatted_entry.of_entry fmt e).mean.length)).foldl max
          header.mean.length ∧
      (report_size fmt entries).median =
        (entries.map (fun e => (formatted_entry.of_entry fmt e).median.length)).foldl max
          header.median.length ∧
      (report_size fmt entries).stddev =
        (entries.map (fun e => (formatted_entry.of_entry fmt e).stddev.length)).foldl max
          header.stddev.length ∧
      (report_size fmt entries).cv =
        (entries.map (fun e => (formatted_entry.of_entry fmt e).cv.length)).foldl max
          header.cv.length) ∧
    (∀ (s : String) (size : Nat),
      padl s size = fill (size - min size s.length) ' ' ++ s ∧
      (padl s size).length = max size s.length) ∧
    print fmt entries =
      header.print (report_size fmt entries) :: separator (report_size fmt entries) ::
        entries.map (fun e => (formatted_entry.of_entry fmt e).print (report_size fmt entries)) ∧
    (∀ line ∈ print fmt entries,
      line.length = (report_size fmt entries).name + (report_size fmt entries).mean +
        (report_size fmt entries).median + (report_size fmt entries).stddev +
        (report_size fmt entries).cv + 12 ∧
      line.data[(report_size fmt entries).name + 1]? = some '|' ∧
      line.data[(report_size fmt entries).name + (report_size fmt entries).mean + 4]? =
        some '|' ∧
      line.data[(report_size fmt entries).name + (report_size fmt entries).mean +
        (report_size fmt entries).median + 7]? = some '|' ∧
      line.data[(report_size fmt entries).name + (report_size fmt entries).mean +
        (report_size fmt entries).median + (report_size fmt entries).stddev + 10]? =
        some '|') := by
  have hprint : print fmt entries =
      header.print (report_size fmt entries) :: separator (report_size fmt entries) ::
        entries.map (fun e => (formatted_entry.of_entry fmt e).print
          (report_size fmt entries)) := by
    simp only [print, report_size, List.map_map]
    rfl
  refine ⟨fun s o => rfl, ?_, fun s size => ⟨rfl, padl_length s size⟩, hprint, ?_⟩
  · simp only [report_size, table_size, foldl_adapt, List.map_map]
    exact ⟨rfl, rfl, rfl, rfl, rfl⟩
  · intro line hline
    rw [hprint] at hline
    rcases List.mem_cons.mp hline with h | h
    · rw [h]
      exact print_row_layout _ header (Or.inl rfl)
    · rcases List.mem_cons.mp h with h | h
      · rw [h]
        exact separator_layout _
      · obtain ⟨e, he, rfl⟩ := List.mem_map.mp h
        exact print_row_layout _ (formatted_entry.of_entry fmt e)
          (Or.inr (List.mem_map_of_mem _ he))

theorem print_layout_witness :
    (separator (report_size (fun _ => "0.00")
        [{ name := "test", arg := 5, mean := 0, median := 0, stddev := 0, cv := 0 }])).length =
      (report_size (fun _ => "0.00")
        [{ name := "test", arg := 5, mean := 0, median := 0, stddev := 0, cv := 0 }]).name +
      (report_size (fun _ => "0.00")
        [{ name := "test", arg := 5, mean := 0, median := 0, stddev := 0, cv := 0 }]).mean +
      (report_size (fun _ => "0.00")
        [{ name := "test", arg := 5, mean := 0, median := 0, stddev := 0, cv := 0 }]).median +
      (report_size (fun _ => "0.00")
        [{ name := "test", arg := 5, mean := 0, median := 0, stddev := 0, cv := 0 }]).stddev +
      (report_size (fun _ => "0.00")
        [{ name := "test", arg := 5, mean := 0, median := 0, stddev := 0, cv := 0 }]).cv + 12 :=
  ((print_layout (fun _ => "0.00")
      [{ name := "test", arg := 5, mean := 0, median := 0, stddev := 0, cv := 0 }]).2.2.2.2
    (separator (report_size (fun _ => "0.00")
      [{ name := "test", arg := 5, mean := 0, median := 0, stddev := 0, cv := 0 }]))
    (by simp [print, report_size])).1

/-- C20: two sample sequences that are permutations of each other aggregate to the same
entry (same mean, median, stddev and cv); the median reported for a non-empty sequence is
the median of its ascending rearrangement, and it lies between the smallest and the
largest sample. -/
theorem aggregate_order_independent (sqrt : ℚ → ℚ) (name : String) (a : arg)
    (v w : List ℚ) (hne : v ≠ []) (hperm : v.Perm w) :
    aggregate sqrt name a v = aggregate sqrt name a w ∧
    (∃ sorted : List ℚ, sorted.Perm v ∧ sorted.Sorted (fun x y => x ≤ y) ∧
      (aggregate sqrt name a v).median = median sorted) ∧
    (∃ lo ∈ v, ∃ hi ∈ v, (∀ x ∈ v, lo ≤ x ∧ x ≤ hi) ∧
      lo ≤ (aggregate sqrt name a v).median ∧ (aggregate sqrt name a v).median ≤ hi) := by
  refine ⟨?_, ⟨_, sort_perm v, sort_sorted v, rfl⟩, ?_⟩
  · simp only [aggregate, sort_eq_of_perm v w hperm]
  · obtain ⟨lo, hlo, hmin⟩ := exists_smallest v hne
    obtain ⟨hi, hhi, hmax⟩ := exists_largest v hne
    have hp := sort_perm v
    have hne2 : v.insertionSort (fun x y => x ≤ y) ≠ [] := by
      intro h0
      rw [h0] at hp
      exact hne hp.symm.eq_nil
    have hb := median_between (v.insertionSort (fun x y => x ≤ y)) lo hi hne2
      (fun x hx => ⟨hmin x (hp.mem_iff.mp hx), hmax x (hp.mem_iff.mp hx)⟩)
    exact ⟨lo, hlo, hi, hhi, fun x hx => ⟨hmin x hx, hmax x hx⟩, hb⟩

theorem aggregate_order_independent_witness :
    aggregate rat_sqrt "t" 5 [3, 1, 2] = aggregate rat_sqrt "t" 5 [2, 3, 1] ∧
    (∃ sorted : List ℚ, sorted.Perm [3, 1, 2] ∧ sorted.Sorted (fun x y => x ≤ y) ∧
      (aggregate rat_sqrt "t" 5 [3, 1, 2]).median = median sorted) ∧
    (∃ lo ∈ [(3 : ℚ), 1, 2], ∃ hi ∈ [(3 : ℚ), 1, 2],
      (∀ x ∈ [(3 : ℚ), 1, 2], lo ≤ x ∧ x ≤ hi) ∧
      lo ≤ (aggregate rat_sqrt "t" 5 [3, 1, 2]).median ∧
      (aggregate rat_sqrt "t" 5 [3, 1, 2]).median ≤ hi) :=
  aggregate_order_independent rat_sqrt "t" 5 [3, 1, 2] [2, 3, 1] (by decide)
    (by decide)

/-! ## Auxiliary facts for the literal constants -/

end ubench
